import Mathlib

/-!
Verification development for the bos-sitemap-generator repository.

The definitions below are a shallow embedding of the JavaScript sources
`src/lib/url-builder.js`, `src/lib/utils.js`, `src/lib/sitemap-validator.js`
and the action entry point (`run()`), restricted to the pure data
transformations that the verified properties are about.  Filesystem access
and HTML parsing are abstracted: each walked file is represented by a
`FileEntry` record carrying what the corresponding reads/parses would have
produced, and the set of existing regular files is passed as a list of
normalized paths.  Node `path` functions and WHATWG URL resolution are
modelled for POSIX-style, already-clean inputs (no percent-encoding, no
Windows drive letters), which is the shape of every value the sources feed
into them.
-/

namespace Sitemap

/-! ## Character list utilities (models of JS string primitives) -/

/-- Model of an ASCII whitespace test (subset of the JS `\s` class that can
occur in the documents this tool reads and writes). -/
def isWsChar (c : Char) : Bool :=
  c = ' ' || c = '\t' || c = '\n' || c = '\r' || c = '\x0b' || c = '\x0c'

/-- Check that the first list is an initial run of the second. -/
def leadsWith : List Char → List Char → Bool
  | [], _ => true
  | _ :: _, [] => false
  | a :: as, b :: bs => a = b && leadsWith as bs

/-- Case-fold a character list with the ASCII lowering used by `String.toLower`. -/
def lowerChars (l : List Char) : List Char := l.map Char.toLower

/-- Kernel-friendly model of `String.startsWith`. -/
def strStarts (s t : String) : Bool := leadsWith t.data s.data

/-- Kernel-friendly model of `String.endsWith`. -/
def strEnds (s t : String) : Bool := leadsWith t.data.reverse s.data.reverse

/-- Kernel-friendly model of `String.contains`. -/
def strHasChar (s : String) (c : Char) : Bool := s.data.contains c

/-- Kernel-friendly model of `String.toLower`. -/
def lowerStr (s : String) : String := (lowerChars s.data).asString

/-- Interleave a separator between character lists. -/
def intercalChars (sep : Char) : List (List Char) → List Char
  | [] => []
  | [x] => x
  | x :: y :: rest => x ++ sep :: intercalChars sep (y :: rest)

/-- Substring test (model of JS `String.prototype.includes`). -/
def hasSub (pat : List Char) : List Char → Bool
  | [] => leadsWith pat []
  | c :: rest => leadsWith pat (c :: rest) || hasSub pat rest

/-- Case-insensitive substring test. -/
def hasSubCI (pat hay : List Char) : Bool :=
  hasSub (lowerChars pat) (lowerChars hay)

/-- Model of the regex test `/^https?:\/\//i` (case-insensitive scheme check). -/
def startsHttp (s : String) : Bool :=
  leadsWith "http://".data (lowerChars s.data) ||
  leadsWith "https://".data (lowerChars s.data)

/-- Split a character list at every occurrence of a separator character. -/
def splitAtChar (sep : Char) : List Char → List (List Char)
  | [] => [[]]
  | c :: rest =>
    let r := splitAtChar sep rest
    if c = sep then [] :: r
    else
      match r with
      | [] => [[c]]
      | h :: t => (c :: h) :: t

/-- Split a string on `/` into raw (unnormalized) segments. -/
def splitSlash (s : String) : List String :=
  (splitAtChar '/' s.data).map List.asString

/-- Join path segments back with `/`. -/
def joinSlash (segs : List String) : String :=
  (intercalChars '/' (segs.map String.data)).asString

/-- Model of JS `s.replace(/\\/g, '/')`. -/
def slashify (s : String) : String :=
  (s.data.map (fun c => if c = '\\' then '/' else c)).asString

/-- Model of JS `s.replace(/^\//, '')`: strip a single leading slash. -/
def stripOneSlash (s : String) : String :=
  match s.data with
  | '/' :: rest => rest.asString
  | _ => s

/-- Model of JS `s.replace(/^\./, '')`: strip a single leading dot. -/
def stripOneDot (s : String) : String :=
  match s.data with
  | '.' :: rest => rest.asString
  | _ => s

/-! ## Node `path` model (POSIX flavour)

`path.join` and `path.relative` as used by `utils.js`/`url-builder.js`:
segment-wise normalization dropping `.` and empty segments and resolving
`..` against the preceding segment.  `path.relative` in Node resolves both
arguments against the working directory first; for the relative,
non-escaping inputs the tool passes, that resolution cancels out and the
common-prefix computation below is equivalent. -/

/-- Normalize a segment list: drop `.` and empty segments, let `..` consume
the previous segment (accumulating leading `..` for relative paths,
discarding them at the root of absolute ones). -/
def normSegsGo (abs : Bool) (acc : List String) : List String → List String
  | [] => acc
  | s :: rest =>
    if s = "" || s = "." then normSegsGo abs acc rest
    else if s = ".." then
      match acc.getLast? with
      | some t =>
        if t = ".." then normSegsGo abs (acc ++ [".."]) rest
        else normSegsGo abs acc.dropLast rest
      | none => if abs then normSegsGo abs acc rest else normSegsGo abs [".."] rest
    else normSegsGo abs (acc ++ [s]) rest

/-- Model of Node `path.join(a, b)` for POSIX paths. -/
def pathJoin (a b : String) : String :=
  let abs := strStarts a "/"
  let segs := normSegsGo abs [] (splitSlash a ++ splitSlash b)
  let joined := (if abs then "/" else "") ++ joinSlash segs
  if joined = "" then "." else joined

/-- Model of Node `path.relative(fromDir, toPath)` for two POSIX paths of the
same kind that do not escape the working directory. -/
def pathRelative (fromDir toPath : String) : String :=
  let fa := normSegsGo (strStarts fromDir "/") [] (splitSlash fromDir)
  let ta := normSegsGo (strStarts toPath "/") [] (splitSlash toPath)
  let common := (List.zip fa ta).takeWhile (fun p => p.fst = p.snd) |>.length
  joinSlash (List.replicate (fa.length - common) ".." ++ ta.drop common)

/-- Model of Node `path.basename`: the part after the last `/`. -/
def baseName (p : String) : String :=
  match (splitSlash p).getLast? with
  | some s => if s = "" then
      match (splitSlash p).dropLast.getLast? with
      | some t => t
      | none => ""
    else s
  | none => ""

/-- Model of Node `path.dirname`: everything before the last `/`
(`"."` when there is no directory part). -/
def dirName (p : String) : String :=
  let segs := (splitSlash p).dropLast
  if segs = [] then "."
  else
    let j := joinSlash segs
    if j = "" then "/" else j

/-- Model of Node `path.extname` composed with `.toLowerCase()` as in
`url-builder.js`: the suffix of the basename from its last dot (empty when
the basename has no dot or only a leading dot). -/
def extnameLower (p : String) : String :=
  let b := (baseName p).data
  let idx := b.reverse.takeWhile (fun c => c ≠ '.')
  if idx.length = b.length then ""
  else if idx.length + 1 = b.length then ""
  else (lowerChars ('.' :: idx.reverse)).asString

/-! ## WHATWG URL model (`utils.js` `normalizeUrl` / `normalizePathToUrl`)

Every call site in the sources passes a reference beginning with `/`, so the
model implements root-relative resolution: scheme plus authority are taken
from the base and the reference path is dot-segment-normalized.  Strings are
assumed free of characters that `new URL` would percent-encode. -/

/-- Take characters up to (excluding) the first `/`. -/
def takeHost : List Char → List Char
  | [] => []
  | c :: rest => if c = '/' then [] else c :: takeHost rest

/-- Scan for `://` accumulating the scheme, then keep the authority. -/
def originGo (acc : List Char) : List Char → List Char
  | [] => acc
  | c :: rest =>
    if leadsWith "://".data (c :: rest) then
      acc ++ ("://".data) ++ takeHost (rest.drop 2)
    else originGo (acc ++ [c]) rest

/-- Scheme and authority of a URL string: everything up to (excluding) the
first `/` after `://`. -/
def urlOrigin (u : String) : String :=
  (originGo [] u.data).asString

/-- Dot-segment removal on a path starting with `/`, tracking whether the
last processed segment forces a trailing slash. -/
def urlSegsGo (acc : List String) (trail : Bool) : List String → List String × Bool
  | [] => (acc, trail)
  | s :: rest =>
    if s = "." then urlSegsGo acc true rest
    else if s = ".." then urlSegsGo acc.dropLast true rest
    else urlSegsGo (acc ++ [s]) false rest

/-- Normalize a root-relative URL path (model of URL parsing of a
path-absolute reference). -/
def urlPathNorm (p : String) : String :=
  let raw := (splitSlash p).drop 1
  let (segs, trail) := urlSegsGo [] false raw
  "/" ++ joinSlash segs ++ (if trail && segs ≠ [] then "/" else "")

/-- Model of `new URL(rel, base)` for the call shapes in this repository:
the reference always begins with `/` (root-relative).  The other branches
keep the function total but are unreachable from the embedded call sites. -/
def urlResolve (base rel : String) : String :=
  if strStarts rel "/" then urlOrigin base ++ urlPathNorm rel
  else if startsHttp rel then rel
  else urlOrigin base ++ urlPathNorm ("/" ++ rel)

/-- Embedding of `normalizeUrl` from `src/lib/utils.js`. -/
def normalizeUrl (base rel : String) : String :=
  let base' := if strEnds base "/" then base else base ++ "/"
  urlResolve base' (stripOneDot rel)

/-- Embedding of `normalizePathToUrl` from `src/lib/utils.js` (POSIX branch;
the Windows branch differs only in the `path` implementation selected). -/
def normalizePathToUrl (baseUrl publicDir fsPath : String) : String :=
  let relRaw := pathRelative publicDir fsPath
  let rel := "/" ++ slashify relRaw
  normalizeUrl baseUrl rel

/-! ## Data model of `buildUrls` (`src/lib/url-builder.js`) -/

/-- Sitemap item as produced by `buildUrls`.  `changefreq` and `priority`
are kept as the configured option strings; the source stores the walked
items' priority as `Number(priority)` and the manual/discovered items'
priority as the raw string, a representation difference with no effect on
any property below. -/
structure Item where
  url : String
  lastmod : Option String := none
  changefreq : Option String := none
  priority : Option String := none
deriving DecidableEq, Repr

/-- Run options consumed by `buildUrls` (already resolved by the action
entry point; empty-string inputs are `none`). -/
structure Config where
  baseUrl : String
  publicDir : String
  changefreq : Option String := none
  priority : Option String := none
  additionalUrls : List String := []
  excludeUrls : List String := []
  parseCanonical : Bool := true
  discoverLinks : Bool := true
  maxDiscoveredLinks : Nat := 10000
  maxTotalUrls : Nat := 100000
deriving DecidableEq, Repr

/-- Abstraction of one file produced by the glob walk.  `canonicalHref` and
`anchors` are what reading and HTML-parsing the file yields (`none`/`[]`
when the read or parse throws, which the source swallows); `statOk` is
whether `fs.statSync` succeeds; `lastmod` is the timestamp the configured
lastmod strategy produces for this file (`none` for strategy `none`). -/
structure FileEntry where
  rel : String
  statOk : Bool := true
  canonicalHref : Option String := none
  anchors : List String := []
  lastmod : Option String := none
deriving DecidableEq, Repr

/-- Anchor scan of one HTML file (`url-builder.js` lines 127-151): the cap
is checked before each addition and reaching it breaks out of the file's
anchor loop; external (`http(s)://`) and fragment hrefs are skipped; a
target is added only when it resolves to an existing regular file and its
URL is not already in the discovery set (insertion order preserved). -/
def addAnchors (cfg : Config) (fsFiles : List String) (dset : List String) :
    List String → List String
  | [] => dset
  | a :: rest =>
    if cfg.maxDiscoveredLinks ≤ dset.length then dset
    else if a = "" then addAnchors cfg fsFiles dset rest
    else if startsHttp a then addAnchors cfg fsFiles dset rest
    else if strStarts a "#" then addAnchors cfg fsFiles dset rest
    else
      let targetFs := pathJoin cfg.publicDir (stripOneSlash a)
      if targetFs ∈ fsFiles then
        let targetUrl := normalizePathToUrl cfg.baseUrl cfg.publicDir targetFs
        if targetUrl ∈ dset then addAnchors cfg fsFiles dset rest
        else addAnchors cfg fsFiles (dset ++ [targetUrl]) rest
      else addAnchors cfg fsFiles dset rest

/-- Per-file step of the walk loop (`url-builder.js` lines 85-175): skip
`.map` files; compute the path-derived URL; for HTML files (when canonical
parsing is on and the stat succeeded) replace it with the canonical href —
an absolute `http(s)` href is taken as-is, any other href has one leading
slash stripped and is joined to the site root `publicDir` — and scan
anchors when link discovery is on. -/
def walkFile (cfg : Config) (fsFiles : List String) (dset : List String)
    (f : FileEntry) : List Item × List String :=
  let ext := extnameLower f.rel
  if ext = ".map" then ([], dset)
  else
    let urlPath := "/" ++ slashify f.rel
    let fullUrl := normalizeUrl cfg.baseUrl urlPath
    let step :=
      if f.statOk then
        if cfg.parseCanonical && (ext = ".html" || ext = ".htm") then
          let u :=
            match f.canonicalHref with
            | some href =>
              if href ≠ "" then
                if startsHttp href then href
                else
                  normalizePathToUrl cfg.baseUrl cfg.publicDir
                    (pathJoin cfg.publicDir (stripOneSlash href))
              else fullUrl
            | none => fullUrl
          let d := if cfg.discoverLinks then addAnchors cfg fsFiles dset f.anchors else dset
          (u, d, f.lastmod)
        else (fullUrl, dset, f.lastmod)
      else (fullUrl, dset, (none : Option String))
    ([{ url := step.1, lastmod := step.2.2, changefreq := cfg.changefreq,
        priority := cfg.priority }], step.2.1)

/-- Fold of `walkFile` over the walked file list, threading the discovery
set across files (the cap is global). -/
def walkGo (cfg : Config) (fsFiles : List String) (items : List Item)
    (dset : List String) : List FileEntry → List Item × List String
  | [] => (items, dset)
  | f :: rest =>
    let r := walkFile cfg fsFiles dset f
    walkGo cfg fsFiles (items ++ r.1) r.2 rest

/-- The walk phase: path/canonical items plus the discovery set. -/
def walkAll (cfg : Config) (fsFiles : List String) (files : List FileEntry) :
    List Item × List String :=
  walkGo cfg fsFiles [] [] files

/-- Manually configured URLs (`url-builder.js` lines 196-201): each carries
the run's configured changefreq and priority. -/
def manualItems (cfg : Config) : List Item :=
  cfg.additionalUrls.map
    (fun u => { url := u, changefreq := cfg.changefreq, priority := cfg.priority })

/-- Merge loop for discovered links (`url-builder.js` lines 203-223): stops
at the total-URL cap and at `maxDiscoveredLinks` additions, skips URLs
already present in the item list, and appends the rest with the run's
configured changefreq and priority. -/
def mergeDiscGo (cfg : Config) (added : Nat) (items : List Item) :
    List String → List Item
  | [] => items
  | u :: rest =>
    if cfg.maxTotalUrls ≤ items.length then items
    else if cfg.maxDiscoveredLinks ≤ added then items
    else if items.any (fun it => it.url = u) then mergeDiscGo cfg added items rest
    else
      mergeDiscGo cfg (added + 1)
        (items ++ [{ url := u, changefreq := cfg.changefreq, priority := cfg.priority }])
        rest

/-- Guarded entry to the merge loop (`if (discoverLinks && discoveredSet.size)`). -/
def mergeDiscovered (cfg : Config) (items : List Item) (ds : List String) : List Item :=
  if cfg.discoverLinks && !ds.isEmpty then mergeDiscGo cfg 0 items ds else items

/-- Candidate items in merge order: walked/canonical items, then manual
URLs, then discovered links (subject to the merge-loop caps). -/
def mergedItems (cfg : Config) (files : List FileEntry) (fsFiles : List String) :
    List Item :=
  let w := walkAll cfg fsFiles files
  mergeDiscovered cfg (w.1 ++ manualItems cfg) w.2

/-- Deduplication loop (`url-builder.js` lines 225-233): keep an item only
when its URL has not been seen before. -/
def dedupGo (seen : List String) : List Item → List Item
  | [] => []
  | it :: rest =>
    if it.url ∈ seen then dedupGo seen rest
    else it :: dedupGo (it.url :: seen) rest

/-- Remove duplicates by URL, first occurrence wins. -/
def dedupKeepFirst (l : List Item) : List Item := dedupGo [] l

/-! ## The exclude-URL matcher (`url-builder.js` lines 236-252)

The source builds `new RegExp('^' + entry.replace(/\*/g, '.*').replace(/\?/g, '.') + '$')`
and tests the whole URL.  `globTranslate` performs the two string
replacements; `reMatch` is a model of anchored JS regex matching for the
translated patterns, in which `.` matches any single character and `*`
is the Kleene star of the preceding atom — faithful for entries containing
no regex metacharacters other than `.`, `*`, `?` (others would need a full
regex engine; entries containing them are outside every statement below). -/

/-- The two global replacements `* → .*` and `? → .` (the second replace
runs on the output of the first but never touches its inserted text). -/
def globTranslate (e : String) : List Char :=
  ((e.data.map (fun c => if c = '*' then ['.', '*'] else [c])).flatten).map
    (fun c => if c = '?' then '.' else c)

/-- One regex atom against one character: `.` matches anything, a literal
matches itself. -/
def atomMatch (a c : Char) : Bool := a = '.' || a = c

/-- Token of a translated pattern: a single atom or a starred atom (in a
translated exclude pattern `*` only ever follows the `.` inserted for it). -/
inductive RTok where
  | atom (a : Char)
  | starAtom (a : Char)
deriving DecidableEq, Repr

/-- Group each `*` quantifier with its preceding atom. -/
def tokenize : List Char → List RTok
  | [] => []
  | a :: rest =>
    if rest.head? = some '*' then .starAtom a :: tokenize rest.tail
    else .atom a :: tokenize rest
termination_by l => l.length
decreasing_by
  · simp only [List.length_cons]
    cases rest <;> simp <;> omega
  · simp

/-- Anchored backtracking match of a token list against a string —
equivalent to JS `RegExp.test` with `^...$` anchors for this pattern
fragment (greediness does not affect overall success). -/
def tokMatch (p : List RTok) (s : List Char) : Bool :=
  match p, s with
  | [], s => s.isEmpty
  | .atom a :: p', s =>
    match s with
    | [] => false
    | c :: s' => atomMatch a c && tokMatch p' s'
  | .starAtom a :: p', s =>
    tokMatch p' s ||
      (match s with
       | [] => false
       | c :: s' => atomMatch a c && tokMatch (.starAtom a :: p') s')
termination_by (s.length, p.length)

/-- Anchored matching of a translated pattern against a string. -/
def reMatch (p s : List Char) : Bool := tokMatch (tokenize p) s

/-- Whether an exclude entry removes a URL (`url-builder.js` filter body):
exact equality always removes; an entry containing `*` or `?` additionally
removes by regex match of its translation. -/
def excludedBy (entries : List String) (url : String) : Bool :=
  entries.any (fun e =>
    e = url || ((strHasChar e '*' || strHasChar e '?') && reMatch (globTranslate e) url.data))

/-- The exclude-URL filter over the deduplicated items. -/
def excludeFilter (entries : List String) (l : List Item) : List Item :=
  if 0 < entries.length then l.filter (fun it => !(excludedBy entries it.url)) else l

/-! ## The final sort (`filteredItems.sort((a, b) => a.url.localeCompare(b.url))`)

The source calls `localeCompare` with no locale argument, so the real
comparator comes from the host's ICU/CLDR collation data under the
runtime's default locale; that data is not part of this repository (for
instance the root collation orders punctuation such as `_` before digits
at the primary level, and other default locales reorder letters).  The
comparator below is therefore a stand-in — a two-level collation:
case-folded code points first, then lowercase before uppercase — used
only to make `buildUrls` a total function.  Every theorem proved about
`buildUrls` below (membership, uniqueness) is invariant under the choice
of comparator, and no ordering property of the final list is asserted
against this stand-in. -/

/-- Lexicographic comparison of two number lists. -/
def lexNat : List Nat → List Nat → Ordering
  | [], [] => .eq
  | [], _ :: _ => .lt
  | _ :: _, [] => .gt
  | a :: as, b :: bs =>
    if a < b then .lt else if b < a then .gt else lexNat as bs

/-- Primary collation key: case-folded code points. -/
def primKey (s : String) : List Nat := s.data.map (fun c => c.toLower.toNat)

/-- Tertiary collation key: lowercase (0) before uppercase (1); ASCII
uppercase means code point in [65, 90]. -/
def tertKey (s : String) : List Nat :=
  s.data.map (fun c => if c.toNat ≥ 65 ∧ c.toNat ≤ 90 then 1 else 0)

/-- Combine two comparison results, the second breaking ties. -/
def ordThen (a b : Ordering) : Ordering :=
  match a with
  | .eq => b
  | x => x

/-- Stand-in for `String.prototype.localeCompare` (see the section
comment): a negative, zero or positive integer. -/
def localeCompare (a b : String) : Int :=
  match ordThen (lexNat (primKey a) (primKey b)) (lexNat (tertKey a) (tertKey b)) with
  | .lt => -1
  | .eq => 0
  | .gt => 1

/-- Insert into a sorted list, keeping earlier elements first on ties. -/
def insertLe (le : α → α → Bool) (x : α) : List α → List α
  | [] => [x]
  | y :: ys => if le x y then x :: y :: ys else y :: insertLe le x ys

/-- Comparator-consistent stable sort (model of `Array.prototype.sort` with
a consistent comparator: any such sort produces the same list here because
the comparator below is antisymmetric on the deduplicated URLs). -/
def sortLe (le : α → α → Bool) : List α → List α
  | [] => []
  | x :: xs => insertLe le x (sortLe le xs)

/-- The comparator `(a, b) => a.url.localeCompare(b.url)` as a sort
predicate. -/
def itemLe (a b : Item) : Bool := decide (localeCompare a.url b.url ≤ 0)

/-- Embedding of `buildUrls`: walk, merge manual and discovered candidates,
deduplicate by URL, filter excluded URLs, sort. -/
def buildUrls (cfg : Config) (files : List FileEntry) (fsFiles : List String) :
    List Item :=
  sortLe itemLe (excludeFilter cfg.excludeUrls (dedupKeepFirst (mergedItems cfg files fsFiles)))

/-! ## The chunker (`run()` in the action entry point, lines 509-512)

`for (let i = 0; i < urls.length; i += MAX_URLS_PER_SITEMAP)
   chunks.push(urls.slice(i, i + MAX_URLS_PER_SITEMAP));`
For `m = 0` the source loop would never terminate; the model returns `[]`
there and every statement about the chunker assumes `1 ≤ m`. -/

/-- Split a list into consecutive chunks of at most `m` elements. -/
def chunksOf (m : Nat) (l : List α) : List (List α) :=
  if h1 : m = 0 then []
  else if h2 : l.isEmpty then []
  else l.take m :: chunksOf m (l.drop m)
termination_by l.length
decreasing_by
  simp only [List.length_drop]
  cases l with
  | nil => simp at h2
  | cons a l =>
    have hm : 0 < m := Nat.pos_of_ne_zero h1
    simp only [List.length_cons]
    omega

/-! ## `parseFloat` model (for the priority validation in `run()`)

JS `parseFloat`: skip leading whitespace, optional sign, decimal digits
with optional fraction and exponent, ignoring trailing garbage; `NaN`
(here `none`) when no digits are consumed.  `Infinity` literals are mapped
to `none`; both sides of that difference abort the run identically. -/

/-- Numeric value of a digit run. -/
def natOfDigits (ds : List Char) : Nat :=
  ds.foldl (fun n c => n * 10 + (c.toNat - 48)) 0

/-- Exponent part: `e`/`E`, optional sign, at least one digit, otherwise 0. -/
def expOf (l : List Char) : Int :=
  match l with
  | e :: r =>
    if e = 'e' || e = 'E' then
      match r with
      | '-' :: r2 =>
        let ds := r2.takeWhile Char.isDigit
        if ds.isEmpty then 0 else -(natOfDigits ds : Int)
      | '+' :: r2 =>
        let ds := r2.takeWhile Char.isDigit
        if ds.isEmpty then 0 else (natOfDigits ds : Int)
      | _ =>
        let ds := r.takeWhile Char.isDigit
        if ds.isEmpty then 0 else (natOfDigits ds : Int)
    else 0
  | [] => 0

/-- Model of JS `parseFloat` as an exact fraction `(numerator, positive
denominator)` — no double rounding; `none` models `NaN`. -/
def jsParseFloat (s : String) : Option (Int × Nat) :=
  let l := s.data.dropWhile isWsChar
  let sgnl : Int × List Char :=
    match l with
    | '-' :: r => (-1, r)
    | '+' :: r => (1, r)
    | _ => (1, l)
  let d1 := sgnl.2.takeWhile Char.isDigit
  let l2 := sgnl.2.dropWhile Char.isDigit
  let fracl : List Char × List Char :=
    match l2 with
    | '.' :: r => (r.takeWhile Char.isDigit, r.dropWhile Char.isDigit)
    | _ => ([], l2)
  if d1.isEmpty && fracl.1.isEmpty then none
  else
    let mantNum : Nat := natOfDigits d1 * 10 ^ fracl.1.length + natOfDigits fracl.1
    let den0 : Nat := 10 ^ fracl.1.length
    match expOf fracl.2 with
    | Int.ofNat e => some (sgnl.1 * (mantNum : Int) * ((10 : Int) ^ e), den0)
    | Int.negSucc e => some (sgnl.1 * (mantNum : Int), den0 * 10 ^ (e + 1))

/-- The priority rejection test from `run()`:
`isNaN(pr) || pr < 0.0 || pr > 1.0` for `pr = parseFloat(priorityInput)`
(on the fraction `n/d` with `d > 0`: negative iff `n < 0`, above one iff
`d < n`). -/
def priorityInvalid (s : String) : Bool :=
  match jsParseFloat s with
  | none => true
  | some (n, d) => decide (n < 0 ∨ (d : Int) < n)

/-! ## The `run()` write-phase model (action entry point)

The model covers the fatal configuration checks in source order (missing
`site_url`/`public_dir`, invalid priority, bad scheme, missing directory),
the URL pipeline, the pre-write leak filter, chunking, and which artifact
files get written.  Log output, artifact upload and the post-write
validation reporting are effect-free for the artifact list and are not
modelled. -/

/-- Inputs of one action run as resolved from `core.getInput` (empty
strings already mapped to `none`/defaults, autodetection already applied). -/
structure RunInputs where
  siteUrl : Option String
  publicDir : Option String
  publicDirFound : Bool := true
  sitemapOutputDir : Option String := none
  sitemapFilename : String := "sitemap.xml"
  priorityInput : Option String := none
  changefreqInput : Option String := none
  strictValidation : Bool := false
  generateXml : Bool := true
  generateTxt : Bool := true
  generateGzip : Bool := true
  additionalUrls : List String := []
  excludeUrls : List String := ["*/sitemap*.xml", "*/sitemap*.txt", "*/sitemap*.xml.gz"]
  excludeExtensions : List String :=
    [".zip", ".exe", ".dmg", ".pkg", ".deb", ".rpm", ".tar", ".gz", ".7z", ".rar", ".iso"]
  parseCanonical : Bool := true
  discoverLinks : Bool := true
  maxUrlsPerSitemap : Nat := 50000
  maxDiscoveredLinks : Nat := 10000
  maxTotalUrls : Nat := 100000
deriving Repr

/-- Outcome of a run: the artifact files written (in write order) and the
`setFailed` messages raised before or during the modelled phases. -/
structure RunResult where
  written : List String := []
  failedMsgs : List String := []
deriving DecidableEq, Repr

/-- The `buildUrls` option bag assembled in `run()`. -/
def RunInputs.toConfig (inp : RunInputs) (siteUrl publicDir : String) : Config :=
  { baseUrl := siteUrl
    publicDir := publicDir
    changefreq := inp.changefreqInput
    priority := inp.priorityInput
    additionalUrls := inp.additionalUrls
    excludeUrls := inp.excludeUrls
    parseCanonical := inp.parseCanonical
    discoverLinks := inp.discoverLinks
    maxDiscoveredLinks := inp.maxDiscoveredLinks
    maxTotalUrls := inp.maxTotalUrls }

/-- Model of `new URL(u).pathname` for an already-normalized absolute URL. -/
def urlPathname (u : String) : String :=
  let rest := u.data.drop (urlOrigin u).length
  let p := rest.takeWhile (fun c => c ≠ '?' && c ≠ '#')
  if p.isEmpty then "/" else p.asString

/-- The sitemap filename fragments the pre-write check looks for. -/
def sitemapPatterns : List String := ["sitemap.xml", "sitemap.txt", "sitemap-index.xml"]

/-- Pre-write leak test (`run()` lines 453-487): an already-collected item
is flagged when its filename contains a sitemap filename fragment, its URL
matches an exclude pattern (every entry compiled to a regex here, wildcard
or not), or its extension is excluded. -/
def invalidForWrite (excludeUrls excludeExtensions : List String) (it : Item) : Bool :=
  let filename := baseName (urlPathname it.url)
  sitemapPatterns.any (fun pat => hasSub pat.data filename.data) ||
  excludeUrls.any (fun pat => reMatch (globTranslate pat) it.url.data) ||
  excludeExtensions.any (fun ext => strEnds (lowerStr filename) ext)

/-- Pre-write filter (`run()` lines 489-506): when leaks were found, drop
every item whose URL equals a flagged item's URL. -/
def preWriteFilter (excludeUrls excludeExtensions : List String) (urls : List Item) :
    List Item :=
  let invalid := urls.filter (invalidForWrite excludeUrls excludeExtensions)
  if invalid.isEmpty then urls
  else urls.filter (fun it => !(invalid.any (fun inv => inv.url = it.url)))

/-- Model of `name.replace(/SUF$/i, repl)` for a literal suffix. -/
def replaceSuffixCI (suf repl name : String) : String :=
  if strEnds (lowerStr name) suf then (name.data.take (name.length - suf.length)).asString ++ repl
  else name

/-- XML artifact paths written for the chunk list (`run()` lines 523-588):
a single sitemap (plus gzip) when at most one chunk, otherwise numbered
parts (each plus gzip), a `sitemap-index.xml`, and its gzip. -/
def xmlWritePaths (inp : RunInputs) (outDir : String) (nChunks : Nat) : List String :=
  if !inp.generateXml then []
  else
    let outMain := pathJoin outDir inp.sitemapFilename
    if nChunks ≤ 1 then
      [outMain] ++ (if inp.generateGzip then [pathJoin outDir (baseName outMain ++ ".gz")] else [])
    else
      ((List.range nChunks).map (fun i =>
        let outPart := pathJoin outDir (replaceSuffixCI ".xml" ("-" ++ toString (i + 1) ++ ".xml") inp.sitemapFilename)
        [outPart] ++ (if inp.generateGzip then [pathJoin outDir (baseName outPart ++ ".gz")] else []))).flatten
      ++ [pathJoin outDir "sitemap-index.xml"]
      ++ (if inp.generateGzip then [pathJoin outDir "sitemap-index.xml.gz"] else [])

/-- TXT artifact paths written for the chunk list (`run()` lines 591-613). -/
def txtWritePaths (inp : RunInputs) (outDir : String) (nChunks : Nat) : List String :=
  if !inp.generateTxt then []
  else
    let txtFilename := replaceSuffixCI ".xml" ".txt" inp.sitemapFilename
    if nChunks ≤ 1 then [pathJoin outDir txtFilename]
    else
      (List.range nChunks).map (fun i =>
        pathJoin outDir (replaceSuffixCI ".txt" ("-" ++ toString (i + 1) ++ ".txt") txtFilename))

/-- Tail of the run after the priority validation passed: the early strict
`additional_urls` check raises `setFailed` without aborting, a non-http(s)
`site_url` aborts, a missing content directory aborts, and otherwise the
URL pipeline runs and the artifacts are written. -/
def runModelAfterPriority (inp : RunInputs) (siteUrl publicDir : String)
    (files : List FileEntry) (fsFiles : List String) : RunResult :=
  let earlyFails :=
    if inp.strictValidation && !inp.additionalUrls.isEmpty &&
        !(inp.additionalUrls.filter (fun u => !startsHttp u)).isEmpty then
      ["invalid URL(s) in additional_urls (must start with http/https)"]
    else []
  if !startsHttp siteUrl then
    { failedMsgs := earlyFails ++ ["site_url must start with http:// or https://"] }
  else if !inp.publicDirFound then
    { failedMsgs := earlyFails ++ ["public_dir not found: " ++ publicDir] }
  else
    let outDir := inp.sitemapOutputDir.getD publicDir
    let urls := buildUrls (inp.toConfig siteUrl publicDir) files fsFiles
    let urls2 := preWriteFilter inp.excludeUrls inp.excludeExtensions urls
    let chunks := chunksOf inp.maxUrlsPerSitemap urls2
    { written := xmlWritePaths inp outDir chunks.length ++ txtWritePaths inp outDir chunks.length
      failedMsgs := earlyFails }

/-- Model of `run()` up to the artifact writes, in source order: missing
`site_url` or `public_dir` abort; an invalid configured priority aborts
before anything is written; the remaining checks and the write phase are
`runModelAfterPriority`. -/
def runModel (inp : RunInputs) (files : List FileEntry) (fsFiles : List String) :
    RunResult :=
  match inp.siteUrl with
  | none => { failedMsgs := ["site_url is missing and could not be inferred"] }
  | some siteUrl =>
    match inp.publicDir with
    | none => { failedMsgs := ["public_dir is missing and could not be auto-detected"] }
    | some publicDir =>
      match inp.priorityInput with
      | some p =>
        if priorityInvalid p then
          { failedMsgs := ["Invalid priority value \"" ++ p ++ "\". Must be between 0.0 and 1.0."] }
        else runModelAfterPriority inp siteUrl publicDir files fsFiles
      | none => runModelAfterPriority inp siteUrl publicDir files fsFiles

/-! ## Validator embedding (`src/lib/sitemap-validator.js`)

The validator works by pattern scanning over the raw document text.  The
regex idioms it uses are modelled by explicit scanners: `.` in the JS
patterns does not match line terminators, `/i` case-folds ASCII tags, and
`/g` scanning resumes after each match.  Scanners that skip past a match
use a fuel argument bounded by the input length; every step consumes at
least one character, so the fuel is never exhausted. -/

/-- Case-insensitive check that `pat` (already lowercase) starts `hay`. -/
def leadsCI : List Char → List Char → Bool
  | [], _ => true
  | _ :: _, [] => false
  | a :: as, b :: bs => a = b.toLower && leadsCI as bs

/-- Model of JS `String.prototype.trim` (ASCII whitespace). -/
def jsTrimChars (l : List Char) : List Char :=
  ((l.dropWhile isWsChar).reverse.dropWhile isWsChar).reverse

/-- Trim on strings. -/
def jsTrim (s : String) : String := (jsTrimChars s.data).asString

/-- Count of non-overlapping case-insensitive occurrences (model of
`(content.match(/pat/gi) || []).length` for a literal pattern). -/
def countSubGo (pat : List Char) : Nat → List Char → Nat
  | 0, _ => 0
  | _ + 1, [] => 0
  | fuel + 1, c :: rest =>
    if leadsCI pat (c :: rest) then 1 + countSubGo pat fuel ((c :: rest).drop pat.length)
    else countSubGo pat fuel rest

/-- Count ci occurrences of a literal pattern in a string. -/
def countSubCI (pat content : String) : Nat :=
  countSubGo (lowerChars pat.data) content.length content.data

/-- Model of the regex test `/<NAME[\s>]/i`: a ci occurrence of `<NAME`
followed by whitespace or `>`. -/
def hasOpenTagGo (pat : List Char) : List Char → Bool
  | [] => false
  | c :: rest =>
    (leadsCI pat (c :: rest) &&
      (match (c :: rest).drop pat.length with
       | d :: _ => isWsChar d || d = '>'
       | [] => false)) ||
    hasOpenTagGo pat rest

/-- Entry point for the open-tag test (`name` without angle brackets). -/
def hasOpenTag (name : String) (l : List Char) : Bool :=
  hasOpenTagGo ('<' :: lowerChars name.data) l

/-- Find the earliest ci occurrence of `close` with no line terminator
before it; return the characters in between and the remainder after the
close (the lazy `(.*?)close` idiom, `.` excluding newlines). -/
def findCloseNoNL (close : List Char) : List Char → Option (List Char × List Char)
  | [] => none
  | c :: rest =>
    if leadsCI close (c :: rest) then some ([], (c :: rest).drop close.length)
    else if c = '\n' || c = '\r' then none
    else
      match findCloseNoNL close rest with
      | some (mid, rem) => some (c :: mid, rem)
      | none => none

/-- Find the earliest ci occurrence of `close`, any characters before it
(the lazy `[\s\S]*?close` idiom). -/
def findCloseAny (close : List Char) : List Char → Option (List Char × List Char)
  | [] => none
  | c :: rest =>
    if leadsCI close (c :: rest) then some ([], (c :: rest).drop close.length)
    else
      match findCloseAny close rest with
      | some (mid, rem) => some (c :: mid, rem)
      | none => none

/-- Global scan for `/<tag>(.*?)<\/tag>/gi`: the list of captured middles
(each match's body), resuming after each match. -/
def scanTagGo (openT closeT : List Char) : Nat → List Char → List (List Char)
  | 0, _ => []
  | _ + 1, [] => []
  | fuel + 1, c :: rest =>
    if leadsCI openT (c :: rest) then
      match findCloseNoNL closeT ((c :: rest).drop openT.length) with
      | some (mid, rem) => mid :: scanTagGo openT closeT fuel rem
      | none => scanTagGo openT closeT fuel rest
    else scanTagGo openT closeT fuel rest

/-- The captured bodies of every `/<tag>(.*?)<\/tag>/gi` match.  The source
keeps the full match string and strips the tags with a global replace; no
tag occurrence can straddle the capture boundary, so stripping the full
match equals stripping the body, which is what the callers below do. -/
def scanTagMid (tag : String) (l : List Char) : List (List Char) :=
  scanTagGo (lowerChars ("<" ++ tag ++ ">").data) (lowerChars ("</" ++ tag ++ ">").data) l.length l

/-- Global replace `/<\/?tag>/gi` with the empty string. -/
def stripTagsGo (openT closeT : List Char) : Nat → List Char → List Char
  | 0, l => l
  | _ + 1, [] => []
  | fuel + 1, c :: rest =>
    if leadsCI openT (c :: rest) then stripTagsGo openT closeT fuel ((c :: rest).drop openT.length)
    else if leadsCI closeT (c :: rest) then stripTagsGo openT closeT fuel ((c :: rest).drop closeT.length)
    else c :: stripTagsGo openT closeT fuel rest

/-- Strip every ci `<tag>`/`</tag>` occurrence. -/
def stripTagsCI (tag : String) (l : List Char) : List Char :=
  stripTagsGo (lowerChars ("<" ++ tag ++ ">").data) (lowerChars ("</" ++ tag ++ ">").data) l.length l

/-- Global scan for the index-entry pattern
`/<sitemap>\s*<loc>(.*?)<\/loc>[\s\S]*?<\/sitemap>/gi`, returning each
match's captured `loc` body. -/
def scanIndexGo : Nat → List Char → List (List Char)
  | 0, _ => []
  | _ + 1, [] => []
  | fuel + 1, c :: rest =>
    if leadsCI "<sitemap>".data (c :: rest) then
      let afterWs := ((c :: rest).drop 9).dropWhile isWsChar
      if leadsCI "<loc>".data afterWs then
        match findCloseNoNL "</loc>".data (afterWs.drop 5) with
        | some (mid, rem1) =>
          match findCloseAny "</sitemap>".data rem1 with
          | some (_, rem2) => mid :: scanIndexGo fuel rem2
          | none => scanIndexGo fuel rest
        | none => scanIndexGo fuel rest
      else scanIndexGo fuel rest
    else scanIndexGo fuel rest

/-- Index entries of a sitemap index document. -/
def scanIndexEntries (l : List Char) : List (List Char) := scanIndexGo l.length l

/-- Severity of a validation finding. -/
inductive FType where
  | info
  | warning
  | error
deriving DecidableEq, Repr

/-- One validation finding (`{type, message}` in the source). -/
structure Finding where
  type : FType
  message : String
deriving DecidableEq, Repr

/-- Strict policy upgrades a check to an error, lenient leaves a warning. -/
def sev (strict : Bool) : FType := if strict then .error else .warning

/-- The seven permitted changefreq values. -/
def validChangefreqValues : List String :=
  ["always", "hourly", "daily", "weekly", "monthly", "yearly", "never"]

/-- Embedding of `validateXmlSitemap`: the structure, namespace, element
and count checks are strict-classified; the loc, changefreq and priority
value checks always produce warnings. -/
def validateXmlSitemap (content : String) (strict : Bool) (maxUrls : Nat) :
    List Finding :=
  let trimmed := jsTrim content
  let hasXmlDeclaration := strStarts trimmed "<?xml"
  let hasUrlsetOpen := hasOpenTag "urlset" content.data
  let hasUrlsetClose := hasSubCI "</urlset>".data content.data
  let seg1 :=
    if !hasXmlDeclaration || !hasUrlsetOpen || !hasUrlsetClose then
      [⟨sev strict, "      ✗ Invalid XML structure (missing <?xml>, <urlset>, or </urlset>)"⟩]
    else [⟨.info, "      ✓ Valid XML format"⟩]
  let hasNamespace :=
    hasSub "xmlns=\"http://www.sitemaps.org/schemas/sitemap/0.9\"".data content.data
  let seg2 :=
    if !hasNamespace then
      [⟨sev strict,
        "      ✗ Missing required namespace: xmlns=\"http://www.sitemaps.org/schemas/sitemap/0.9\""⟩]
    else []
  let hasUrlTags := hasSub "<url>".data content.data && hasSub "</url>".data content.data
  let hasLocTags := hasSub "<loc>".data content.data && hasSub "</loc>".data content.data
  let seg3 :=
    if !hasUrlTags then [⟨sev strict, "      ✗ Missing required <url> tags"⟩]
    else if !hasLocTags then [⟨sev strict, "      ✗ Missing required <loc> tags"⟩]
    else []
  let urlCount := countSubCI "<url>" content
  let seg4 :=
    if maxUrls < urlCount then
      [⟨sev strict,
        "      ✗ Exceeds URL limit: " ++ toString urlCount ++ " URLs (max: " ++
          toString maxUrls ++ ")"⟩]
    else []
  let locMids := scanTagMid "loc" content.data
  let invalidLocCount :=
    locMids.countP (fun mid =>
      let url := (stripTagsCI "loc" mid).asString
      !startsHttp url || 2048 ≤ url.length)
  let seg5 :=
    if 0 < invalidLocCount then
      [⟨.warning,
        "      ⚠️  Contains " ++ toString invalidLocCount ++
          " invalid URL(s) (must start with http/https and be < 2,048 chars)"⟩]
    else []
  let invalidChangefreq :=
    (scanTagMid "changefreq" content.data).countP (fun mid =>
      let freq := (jsTrimChars (stripTagsCI "changefreq" mid)).asString
      !(validChangefreqValues.contains freq))
  let seg6 :=
    if 0 < invalidChangefreq then
      [⟨.warning,
        "      ⚠️  Invalid <changefreq> value(s) (valid: always, hourly, daily, weekly, monthly, yearly, never)"⟩]
    else []
  let invalidPriority :=
    (scanTagMid "priority" content.data).countP (fun mid =>
      priorityInvalid (jsTrimChars (stripTagsCI "priority" mid)).asString)
  let seg7 :=
    if 0 < invalidPriority then
      [⟨.warning, "      ⚠️  Invalid <priority> value: must be between 0.0 and 1.0"⟩]
    else []
  let seg8 :=
    if hasNamespace && hasUrlTags && hasLocTags && 0 < locMids.length then
      [⟨.info, "      ✓ Valid sitemap format (sitemaps.org compliant)"⟩]
    else []
  seg1 ++ seg2 ++ seg3 ++ seg4 ++ seg5 ++ seg6 ++ seg7 ++ seg8

/-- Split on `/\r?\n/`: each `\n` ends a line, consuming one directly
preceding `\r`; a `\r` not followed by `\n` stays inside its line. -/
def splitCRLF : List Char → List (List Char)
  | [] => [[]]
  | '\r' :: '\n' :: rest => [] :: splitCRLF rest
  | '\n' :: rest => [] :: splitCRLF rest
  | c :: rest =>
    match splitCRLF rest with
    | [] => [[c]]
    | h :: t => (c :: h) :: t

/-- `content.split(/\r?\n/).filter(Boolean)`. -/
def txtLines (content : String) : List String :=
  ((splitCRLF content.data).map List.asString).filter (fun l => l ≠ "")

/-- Per-line invalidity test of the TXT validators:
`!/^https?:\/\//i.test(line) || /[\r\n]/.test(line)`. -/
def txtLineInvalid (l : String) : Bool :=
  !startsHttp l || strHasChar l '\r' || strHasChar l '\n'

/-- Embedding of `validateTxtSitemap`. -/
def validateTxtSitemap (content : String) (strict : Bool) (maxUrls : Nat) :
    List Finding :=
  let lines := txtLines content
  let urlCount := lines.length
  let seg1 :=
    if maxUrls < urlCount then
      [⟨sev strict,
        "      ✗ Exceeds URL limit: " ++ toString urlCount ++ " URLs (max: " ++
          toString maxUrls ++ ")"⟩]
    else []
  let invalid := lines.countP (fun l => txtLineInvalid l)
  let seg2 :=
    if 0 < invalid then
      [⟨sev strict,
        "      ⚠️  Contains " ++ toString invalid ++
          " invalid URL(s) (must start with http/https, no embedded newlines)"⟩]
    else [⟨.info, "      ✓ Valid TXT sitemap format (sitemaps.org compliant)"⟩]
  seg1 ++ seg2

/-- Embedding of `validateSitemapIndex`. -/
def validateSitemapIndex (content : String) (strict : Bool) (maxSitemaps : Nat) :
    List Finding :=
  let trimmed := jsTrim content
  let hasXmlDeclaration := strStarts trimmed "<?xml"
  let hasIndexOpen := hasOpenTag "sitemapindex" content.data
  let hasIndexClose := hasSubCI "</sitemapindex>".data content.data
  let seg1 :=
    if !hasIndexOpen || !hasIndexClose then
      [⟨sev strict,
        "      ✗ Invalid sitemap index structure (missing <sitemapindex> or </sitemapindex>)"⟩]
    else if hasXmlDeclaration then [⟨.info, "      ✓ Valid XML format (index)"⟩]
    else [⟨.info, "      ✓ XML format (index) - no declaration (acceptable)"⟩]
  let entries := scanIndexEntries content.data
  let seg2 :=
    if entries.length = 0 then
      [⟨sev strict, "      ✗ Missing <sitemap> entries in index"⟩]
    else []
  let seg3 :=
    if maxSitemaps < entries.length then
      [⟨sev strict,
        "      ✗ Exceeds sitemap index entry limit: " ++ toString entries.length ++
          " (max: " ++ toString maxSitemaps ++ ")"⟩]
    else []
  let invalidLocs :=
    entries.countP (fun mid =>
      let url := (jsTrimChars mid).asString
      !startsHttp url || 2048 ≤ url.length)
  let seg4 :=
    if 0 < invalidLocs then
      [⟨sev strict,
        "      ⚠️  Contains " ++ toString invalidLocs ++ " invalid sitemap <loc> URL(s)"⟩]
    else []
  let seg5 :=
    if hasIndexOpen && hasIndexClose && 0 < entries.length && invalidLocs = 0 then
      [⟨.info, "      ✓ Valid sitemap index format (sitemaps.org compliant)"⟩]
    else []
  seg1 ++ seg2 ++ seg3 ++ seg4 ++ seg5

/-- Per-file findings of the external-file validators: ordered error,
warning and info message lists. -/
structure FileFindings where
  errors : List String := []
  warnings : List String := []
  info : List String := []
deriving DecidableEq, Repr

/-- Embedding of `validateTxtFileContent` (external TXT file validation):
same line split and per-line test as `validateTxtSitemap`, but routed into
the per-file error/warning/info lists. -/
def validateTxtFileContent (content : String) (strict : Bool) (maxUrls : Nat) :
    FileFindings :=
  let lines := txtLines content
  let urlCount := lines.length
  if urlCount = 0 then { warnings := ["No URLs found in sitemap"] }
  else
    let sizeMsg := "Exceeds URL limit: " ++ toString urlCount ++ " URLs (max: " ++
      toString maxUrls ++ ")"
    let countErrors := if maxUrls < urlCount && strict then [sizeMsg] else []
    let countWarnings := if maxUrls < urlCount && !strict then [sizeMsg] else []
    let countInfo := if maxUrls < urlCount then [] else ["Contains " ++ toString urlCount ++ " URLs"]
    let invalid := lines.countP (fun l => txtLineInvalid l)
    let invMsg := "Contains " ++ toString invalid ++ " invalid URL(s) (must start with http/https)"
    { errors := countErrors ++ (if 0 < invalid && strict then [invMsg] else [])
      warnings := countWarnings ++ (if 0 < invalid && !strict then [invMsg] else [])
      info := countInfo ++
        (if 0 < invalid then [] else ["Valid TXT sitemap format (sitemaps.org compliant)"]) }

/-! ## Specification-side definitions

The definitions in this section follow the wording of the specification
(not the sources) and exist to be compared against the embedded code. -/

/-- Character-level form of `globTranslate`, fused into one pass (proved
equal to it below). -/
def gtl : List Char → List Char
  | [] => []
  | c :: r =>
    if c = '*' then '.' :: '*' :: gtl r
    else if c = '?' then '.' :: gtl r
    else c :: gtl r

/-- Glob matching exactly as the claim words it: `*` matches zero or more
characters, `?` matches exactly one character, and every other character —
including `.` — matches only itself. -/
def specGlobMatch (p s : List Char) : Bool :=
  match p, s with
  | [], s => s.isEmpty
  | a :: p', s =>
    if a = '*' then
      specGlobMatch p' s ||
        (match s with
         | [] => false
         | _ :: s' => specGlobMatch (a :: p') s')
    else if a = '?' then
      match s with
      | [] => false
      | _ :: s' => specGlobMatch p' s'
    else
      match s with
      | [] => false
      | d :: s' => a = d && specGlobMatch p' s'
termination_by (s.length, p.length)

/-- Glob matching as the code actually behaves for metacharacter-free
entries: like `specGlobMatch` but an (unescaped, hence regex-significant)
`.` also matches exactly one arbitrary character. -/
def globDotMatch (p s : List Char) : Bool :=
  match p, s with
  | [], s => s.isEmpty
  | a :: p', s =>
    if a = '*' then
      globDotMatch p' s ||
        (match s with
         | [] => false
         | _ :: s' => globDotMatch (a :: p') s')
    else if a = '?' || a = '.' then
      match s with
      | [] => false
      | _ :: s' => globDotMatch p' s'
    else
      match s with
      | [] => false
      | d :: s' => a = d && globDotMatch p' s'
termination_by (s.length, p.length)

/-- Entries whose characters carry no regex meaning besides `.`, `*`, `?`:
the domain on which the scanner model `reMatch` is faithful to JS
`RegExp`. -/
def regexMetaFree (e : String) : Bool :=
  e.data.all (fun c =>
    !(c = '(' || c = ')' || c = '[' || c = ']' || c = '\x7b' || c = '\x7d' ||
      c = '^' || c = '$' || c = '+' || c = '|' || c = '\\'))

/-- Resolution of a relative canonical href as the specification words it:
against the containing directory of the file being parsed, converted to a
filesystem path, and normalized back to an absolute URL. -/
def specCanonicalResolve (baseUrl publicDir fileRel href : String) : String :=
  normalizePathToUrl baseUrl publicDir
    (pathJoin (dirName (pathJoin publicDir fileRel)) href)

/-- Uncapped variant of `addAnchors`: what the anchor scan would collect
with no discovery limit (used to express "distinct discoverable links"). -/
def addAnchorsNoCap (cfg : Config) (fsFiles : List String) (dset : List String) :
    List String → List String
  | [] => dset
  | a :: rest =>
    if a = "" then addAnchorsNoCap cfg fsFiles dset rest
    else if startsHttp a then addAnchorsNoCap cfg fsFiles dset rest
    else if strStarts a "#" then addAnchorsNoCap cfg fsFiles dset rest
    else
      let targetFs := pathJoin cfg.publicDir (stripOneSlash a)
      if targetFs ∈ fsFiles then
        let targetUrl := normalizePathToUrl cfg.baseUrl cfg.publicDir targetFs
        if targetUrl ∈ dset then addAnchorsNoCap cfg fsFiles dset rest
        else addAnchorsNoCap cfg fsFiles (dset ++ [targetUrl]) rest
      else addAnchorsNoCap cfg fsFiles dset rest

/-- Discovery-set contribution of one file, uncapped. -/
def discFileNoCap (cfg : Config) (fsFiles : List String) (dset : List String)
    (f : FileEntry) : List String :=
  if extnameLower f.rel = ".map" then dset
  else if f.statOk then
    if cfg.parseCanonical && (extnameLower f.rel = ".html" || extnameLower f.rel = ".htm") then
      if cfg.discoverLinks then addAnchorsNoCap cfg fsFiles dset f.anchors else dset
    else dset
  else dset

/-- Uncapped discovery fold over the walked files. -/
def discGoNoCap (cfg : Config) (fsFiles : List String) (dset : List String) :
    List FileEntry → List String
  | [] => dset
  | f :: rest => discGoNoCap cfg fsFiles (discFileNoCap cfg fsFiles dset f) rest

/-- All distinct discoverable internal links of a run, in first-seen order. -/
def discoverAllNoCap (cfg : Config) (fsFiles : List String)
    (files : List FileEntry) : List String :=
  discGoNoCap cfg fsFiles [] files

/-- Demotion of an error finding to a warning (the lenient policy's image
of the strict policy's output). -/
def demote (f : Finding) : Finding :=
  match f.type with
  | .error => { f with type := .warning }
  | _ => f

/-! ## General lemmas -/

theorem insertLe_perm (le : α → α → Bool) (x : α) (l : List α) :
    (insertLe le x l).Perm (x :: l) := by
  induction l with
  | nil => exact List.Perm.refl _
  | cons y ys ih =>
    unfold insertLe
    by_cases h : le x y = true
    · simp [h]
    · simp only [h, if_false]
      exact ((ih.cons y).trans (List.Perm.swap x y ys))

theorem sortLe_perm (le : α → α → Bool) (l : List α) :
    (sortLe le l).Perm l := by
  induction l with
  | nil => exact List.Perm.refl _
  | cons x xs ih =>
    exact (insertLe_perm le x (sortLe le xs)).trans (ih.cons x)

theorem dedupGo_not_seen (l : List Item) :
    ∀ seen, ∀ it ∈ dedupGo seen l, it.url ∉ seen := by
  induction l with
  | nil => intro seen it h; simp [dedupGo] at h
  | cons a rest ih =>
    intro seen it h
    unfold dedupGo at h
    by_cases ha : a.url ∈ seen
    · simp only [if_pos ha] at h
      exact ih seen it h
    · simp only [if_neg ha] at h
      rcases List.mem_cons.mp h with h | h
      · subst h; exact ha
      · have := ih (a.url :: seen) it h
        intro hc
        exact this (List.mem_cons_of_mem _ hc)

theorem dedupGo_map_nodup (l : List Item) :
    ∀ seen, ((dedupGo seen l).map Item.url).Nodup := by
  induction l with
  | nil => intro seen; simp [dedupGo]
  | cons a rest ih =>
    intro seen
    unfold dedupGo
    by_cases ha : a.url ∈ seen
    · simpa [ha] using ih seen
    · simp only [if_neg ha, List.map_cons, List.nodup_cons]
      constructor
      · intro hmem
        rcases List.mem_map.mp hmem with ⟨it, hit, hurl⟩
        have := dedupGo_not_seen rest (a.url :: seen) it hit
        exact this (hurl ▸ List.mem_cons_self _ _)
      · exact ih (a.url :: seen)

theorem excludeFilter_sublist (entries : List String) (l : List Item) :
    (excludeFilter entries l).Sublist l := by
  unfold excludeFilter
  by_cases h : 0 < entries.length
  · simp only [if_pos h]; exact List.filter_sublist l
  · simp only [if_neg h]; exact List.Sublist.refl l

/-! ## C1: URL uniqueness of the final collection -/

/-- C1: for every run configuration and input filesystem, the final item
collection returned by `buildUrls` contains no two items with equal `url`
strings (the mapped URL list has no duplicates). -/
theorem C1_buildUrls_urls_nodup (cfg : Config) (files : List FileEntry)
    (fsFiles : List String) :
    ((buildUrls cfg files fsFiles).map Item.url).Nodup := by
  have hdedup : ((dedupKeepFirst (mergedItems cfg files fsFiles)).map Item.url).Nodup :=
    dedupGo_map_nodup _ []
  have hfilter :
      ((excludeFilter cfg.excludeUrls (dedupKeepFirst (mergedItems cfg files fsFiles))).map
        Item.url).Nodup :=
    ((excludeFilter_sublist _ _).map Item.url).nodup hdedup
  have hperm :
      ((buildUrls cfg files fsFiles).map Item.url).Perm
        ((excludeFilter cfg.excludeUrls (dedupKeepFirst (mergedItems cfg files fsFiles))).map
          Item.url) :=
    (sortLe_perm itemLe _).map Item.url
  exact hperm.nodup_iff.mpr hfilter

/-! ## C2: the chunker -/

theorem chunksOf_flatten (m : Nat) (hm : 1 ≤ m) (l : List α) :
    (chunksOf m l).flatten = l := by
  induction l using chunksOf.induct m with
  | case1 x h0 => omega
  | case2 x h0 hemp =>
    rw [chunksOf]
    simp only [dif_neg h0, dif_pos hemp]
    simpa using (List.isEmpty_iff.mp hemp).symm
  | case3 x h0 hemp ih =>
    rw [chunksOf]
    simp only [dif_neg h0, dif_neg hemp, List.flatten_cons]
    rw [ih, List.take_append_drop]

theorem chunksOf_length (m : Nat) (hm : 1 ≤ m) (l : List α) :
    (chunksOf m l).length = (l.length + m - 1) / m := by
  induction l using chunksOf.induct m with
  | case1 x h0 => omega
  | case2 x h0 hemp =>
    rw [chunksOf]
    simp only [dif_neg h0, dif_pos hemp, List.length_nil]
    have hx : x = [] := List.isEmpty_iff.mp hemp
    subst hx
    simp only [List.length_nil, Nat.zero_add]
    exact (Nat.div_eq_of_lt (by omega)).symm
  | case3 x h0 hemp ih =>
    rw [chunksOf]
    simp only [dif_neg h0, dif_neg hemp, List.length_cons]
    rw [ih]
    have hxpos : 1 ≤ x.length := by
      cases x with
      | nil => simp at hemp
      | cons a t => simp
    simp only [List.length_drop]
    rcases le_or_lt m x.length with h | h
    · have heq : x.length + m - 1 = (x.length - m + m - 1) + m := by omega
      rw [heq, Nat.add_div_right _ (by omega)]
    · have hdrop : x.length - m = 0 := by omega
      rw [hdrop]
      have h1 : (0 + m - 1) / m = 0 := Nat.div_eq_of_lt (by omega)
      rw [h1]
      have h2 : (x.length + m - 1) / m = 1 := by
        apply Nat.div_eq_of_lt_le
        · omega
        · omega
      omega

theorem chunksOf_eq_nil_iff (m : Nat) (hm : 1 ≤ m) (l : List α) :
    chunksOf m l = [] ↔ l = [] := by
  constructor
  · intro h
    by_contra hne
    rw [chunksOf] at h
    have hemp : l.isEmpty = false := by
      cases l with
      | nil => exact absurd rfl hne
      | cons a t => rfl
    simp [Nat.ne_of_gt (by omega : 0 < m), hemp] at h
  · intro h
    subst h
    rw [chunksOf]
    simp

theorem chunksOf_dropLast_length (m : Nat) (hm : 1 ≤ m) (l : List α) :
    ∀ c ∈ (chunksOf m l).dropLast, c.length = m := by
  induction l using chunksOf.induct m with
  | case1 x h0 => omega
  | case2 x h0 hemp =>
    rw [chunksOf]
    simp [dif_neg h0, dif_pos hemp]
  | case3 x h0 hemp ih =>
    rw [chunksOf]
    simp only [dif_neg h0, dif_neg hemp]
    by_cases hdrop : x.drop m = []
    · rw [hdrop, (chunksOf_eq_nil_iff m hm ([] : List α)).mpr rfl]
      simp
    · have hrest : chunksOf m (x.drop m) ≠ [] := by
        intro hc
        exact hdrop ((chunksOf_eq_nil_iff m hm _).mp hc)
      rw [List.dropLast_cons_of_ne_nil hrest]
      intro c hc
      rcases List.mem_cons.mp hc with hc | hc
      · subst hc
        have hlen : m ≤ x.length := by
          by_contra hlt
          exact hdrop (List.drop_eq_nil_of_le (by omega))
        simp [List.length_take, Nat.min_eq_left hlen]
      · exact ih c hc

/-- C2: for every final item list of length N and per-file limit M ≥ 1 the
chunker produces ⌈N/M⌉ chunks, every chunk except possibly the last has
exactly M items, and concatenating the chunks in order reproduces the
input list. -/
theorem C2_chunker_spec (urls : List Item) (m : Nat) (hm : 1 ≤ m) :
    (chunksOf m urls).length = (urls.length + m - 1) / m ∧
    (∀ c ∈ (chunksOf m urls).dropLast, c.length = m) ∧
    (chunksOf m urls).flatten = urls :=
  ⟨chunksOf_length m hm urls, chunksOf_dropLast_length m hm urls,
    chunksOf_flatten m hm urls⟩

/-- Sample items for the chunker witness. -/
def sampleItems : List Item :=
  [{ url := "https://e.com/a" }, { url := "https://e.com/b" },
   { url := "https://e.com/c" }, { url := "https://e.com/d" },
   { url := "https://e.com/e" }]

/-- Witness for C2 at five items and limit two (three chunks of 2, 2, 1). -/
theorem C2_chunker_spec_witness :
    (chunksOf 2 sampleItems).length = (sampleItems.length + 2 - 1) / 2 ∧
    (∀ c ∈ (chunksOf 2 sampleItems).dropLast, c.length = 2) ∧
    (chunksOf 2 sampleItems).flatten = sampleItems :=
  C2_chunker_spec sampleItems 2 (by decide)

/-! ## C3: invalid priority aborts before any write -/

/-- C3: when the configured priority string does not parse to a number or
parses outside [0, 1], the run fails and its artifact write list is empty —
no XML, TXT, gzip or index file is created. -/
theorem C3_priority_abort (inp : RunInputs) (files : List FileEntry)
    (fsFiles : List String) (p : String) (hp : inp.priorityInput = some p)
    (hinv : priorityInvalid p = true) :
    (runModel inp files fsFiles).written = [] ∧
    (runModel inp files fsFiles).failedMsgs ≠ [] := by
  unfold runModel
  cases hsu : inp.siteUrl with
  | none => simp
  | some su =>
    cases hpd : inp.publicDir with
    | none => simp
    | some pd =>
      rw [hp]
      simp [hinv]

/-- Sample run inputs with an out-of-range priority. -/
def badPriorityInputs : RunInputs :=
  { siteUrl := some "https://e.com"
    publicDir := some "dist"
    priorityInput := some "1.5" }

/-- Witness for C3: priority input "1.5" yields no artifacts. -/
theorem C3_priority_abort_witness :
    (runModel badPriorityInputs [] []).written = [] ∧
    (runModel badPriorityInputs [] []).failedMsgs ≠ [] :=
  C3_priority_abort badPriorityInputs [] [] "1.5" rfl (by decide)

/-! ## C4: exclude-URL matching -/

theorem gtl_head_ne (l : List Char) : (gtl l).head? ≠ some '*' := by
  cases l with
  | nil => simp [gtl]
  | cons c r =>
    unfold gtl
    by_cases h1 : c = '*'
    · simp [h1]
    · by_cases h2 : c = '?'
      · simp [h1, h2]
      · simp [h1, h2]

theorem tokenize_cons_star (a : Char) (rest : List Char) :
    tokenize (a :: '*' :: rest) = .starAtom a :: tokenize rest := by
  conv_lhs => rw [tokenize]
  simp

theorem tokenize_cons_of_head_ne (a : Char) (rest : List Char)
    (h : rest.head? ≠ some '*') :
    tokenize (a :: rest) = .atom a :: tokenize rest := by
  conv_lhs => rw [tokenize]
  simp [h]

/-- Token denotation of one glob character after translation. -/
def tokOf (c : Char) : RTok :=
  if c = '*' then .starAtom '.' else if c = '?' then .atom '.' else .atom c

theorem tokenize_gtl (l : List Char) : tokenize (gtl l) = l.map tokOf := by
  induction l with
  | nil => simp [gtl, tokenize]
  | cons c r ih =>
    unfold gtl
    by_cases h1 : c = '*'
    · simp only [if_pos h1, List.map_cons]
      rw [tokenize_cons_star, ih]
      simp [tokOf, h1]
    · by_cases h2 : c = '?'
      · simp only [if_neg h1, if_pos h2, List.map_cons]
        rw [tokenize_cons_of_head_ne '.' (gtl r) (gtl_head_ne r), ih]
        simp [tokOf, h1, h2]
      · simp only [if_neg h1, if_neg h2, List.map_cons]
        rw [tokenize_cons_of_head_ne c (gtl r) (gtl_head_ne r), ih]
        simp [tokOf, h1, h2]

theorem globTranslate_list (l : List Char) :
    ((l.map fun c => if c = '*' then ['.', '*'] else [c]).flatten).map
      (fun c => if c = '?' then '.' else c) = gtl l := by
  induction l with
  | nil => simp [gtl]
  | cons c r ih =>
    simp only [List.map_cons, List.flatten_cons, List.map_append]
    rw [ih]
    conv_rhs => rw [gtl]
    by_cases h1 : c = '*'
    · simp [h1]
    · by_cases h2 : c = '?'
      · simp [h1, h2]
      · simp [h1, h2]

theorem globTranslate_eq_gtl (e : String) : globTranslate e = gtl e.data :=
  globTranslate_list e.data

theorem tokMatch_map_tokOf (e : List Char) :
    ∀ s, tokMatch (e.map tokOf) s = globDotMatch e s := by
  induction e with
  | nil =>
    intro s
    cases s <;> simp [tokMatch, globDotMatch]
  | cons c r ih =>
    by_cases h1 : c = '*'
    · subst h1
      intro s
      induction s with
      | nil =>
        simp [tokMatch, globDotMatch, tokOf, ih]
      | cons d s' ihs =>
        simp only [List.map_cons] at ihs ⊢
        simp only [tokOf, reduceIte] at ihs ⊢
        rw [tokMatch.eq_def, globDotMatch.eq_def]
        simp [atomMatch, ih, ihs]
    · by_cases h2 : c = '?' ∨ c = '.'
      · intro s
        have htok : tokOf c = .atom '.' := by
          rcases h2 with h2 | h2 <;> simp [tokOf, h1, h2]
        cases s with
        | nil =>
          simp only [List.map_cons, htok]
          rw [tokMatch.eq_def, globDotMatch.eq_def]
          rcases h2 with h2 | h2 <;> simp [h1, h2]
        | cons d s' =>
          simp only [List.map_cons, htok]
          rw [tokMatch.eq_def, globDotMatch.eq_def]
          rcases h2 with h2 | h2 <;> simp [h1, h2, atomMatch, ih s']
      · intro s
        push_neg at h2
        have htok : tokOf c = .atom c := by simp [tokOf, h1, h2.1]
        cases s with
        | nil =>
          simp only [List.map_cons, htok]
          rw [tokMatch.eq_def, globDotMatch.eq_def]
          simp [h1, h2.1, h2.2]
        | cons d s' =>
          simp only [List.map_cons, htok]
          rw [tokMatch.eq_def, globDotMatch.eq_def]
          simp [h1, h2.1, h2.2, atomMatch, ih s']

theorem reMatch_eq_globDot (e : String) (s : List Char) :
    reMatch (globTranslate e) s = globDotMatch e.data s := by
  unfold reMatch
  rw [globTranslate_eq_gtl, tokenize_gtl, tokMatch_map_tokOf]

theorem mem_sortLe (le : α → α → Bool) (l : List α) (x : α) :
    x ∈ sortLe le l ↔ x ∈ l :=
  (sortLe_perm le l).mem_iff

/-- C4 (amended): with `.` read as the regex any-character atom that the
unescaped translation produces, an item of the deduplicated candidate list
survives the exclusion filter (hence appears in the final collection) iff
no entry equals its URL exactly and no wildcard-bearing entry matches it.
The `regexMetaFree` hypothesis marks the entries for which the embedded
matcher is a faithful model of the JS `RegExp` the code compiles. -/
theorem C4_exclusion_semantics (cfg : Config) (files : List FileEntry)
    (fsFiles : List String)
    (hmeta : ∀ e ∈ cfg.excludeUrls, regexMetaFree e = true) (it : Item) :
    it ∈ buildUrls cfg files fsFiles ↔
      (it ∈ dedupKeepFirst (mergedItems cfg files fsFiles) ∧
       ¬ ∃ e ∈ cfg.excludeUrls, e = it.url ∨
          ((strHasChar e '*' = true ∨ strHasChar e '?' = true) ∧
            globDotMatch e.data it.url.data = true)) := by
  have hkey : ∀ entries url, excludedBy entries url = true ↔
      ∃ e ∈ entries, e = url ∨
        ((strHasChar e '*' = true ∨ strHasChar e '?' = true) ∧
          globDotMatch e.data url.data = true) := by
    intro entries url
    unfold excludedBy
    rw [List.any_eq_true]
    constructor
    · rintro ⟨e, he, hp⟩
      refine ⟨e, he, ?_⟩
      simp only [Bool.or_eq_true, decide_eq_true_eq, Bool.and_eq_true] at hp
      rcases hp with h | ⟨hw, hm⟩
      · exact Or.inl h
      · exact Or.inr ⟨hw, by rwa [reMatch_eq_globDot] at hm⟩
    · rintro ⟨e, he, hp⟩
      refine ⟨e, he, ?_⟩
      simp only [Bool.or_eq_true, decide_eq_true_eq, Bool.and_eq_true]
      rcases hp with h | ⟨hw, hm⟩
      · exact Or.inl h
      · exact Or.inr ⟨hw, by rwa [reMatch_eq_globDot]⟩
  unfold buildUrls
  rw [mem_sortLe]
  unfold excludeFilter
  by_cases hlen : 0 < cfg.excludeUrls.length
  · simp only [if_pos hlen, List.mem_filter, Bool.not_eq_true']
    refine and_congr_right fun _ => ?_
    rw [← Bool.not_eq_true]
    exact not_congr (hkey cfg.excludeUrls it.url)
  · simp only [if_neg hlen]
    have hnil : cfg.excludeUrls = [] := by
      cases h : cfg.excludeUrls with
      | nil => rfl
      | cons a t => rw [h] at hlen; simp at hlen
    rw [hnil]
    simp

/-- Exclusion counterexample configuration: one non-HTML file and the
exclude entry `*.html`. -/
def exCfg4 : Config :=
  { baseUrl := "https://e.com", publicDir := "dist", excludeUrls := ["*.html"] }

/-- The walked file whose URL ends in `Xhtml` (not `.html`). -/
def exFile4 : FileEntry := { rel := "aXhtml" }

unseal tokMatch tokenize specGlobMatch in
/-- C4 counterexample: the URL `https://e.com/aXhtml` is collected, equals
no exclude entry, and matches no entry under the claim's glob reading
(`*`/`?` wildcards, all other characters literal) — yet the code removes
it, because the unescaped `.` of `*.html` matches the character `X` as a
regex any-character atom. -/
theorem C4_counterexample :
    dedupKeepFirst (mergedItems exCfg4 [exFile4] []) =
      [{ url := "https://e.com/aXhtml" }] ∧
    buildUrls exCfg4 [exFile4] [] = [] ∧
    ∀ e ∈ exCfg4.excludeUrls,
      e ≠ "https://e.com/aXhtml" ∧
      specGlobMatch e.data "https://e.com/aXhtml".data = false := by
  decide

/-- Witness instantiation of the amended exclusion theorem. -/
theorem C4_exclusion_semantics_witness :
    ({ url := "https://e.com/keep.txt" } : Item) ∈ buildUrls exCfg4 [{ rel := "keep.txt" }] [] ↔
      (({ url := "https://e.com/keep.txt" } : Item) ∈
          dedupKeepFirst (mergedItems exCfg4 [{ rel := "keep.txt" }] []) ∧
       ¬ ∃ e ∈ exCfg4.excludeUrls, e = "https://e.com/keep.txt" ∨
          ((strHasChar e '*' = true ∨ strHasChar e '?' = true) ∧
            globDotMatch e.data "https://e.com/keep.txt".data = true)) :=
  C4_exclusion_semantics exCfg4 [{ rel := "keep.txt" }] [] (by decide)
    { url := "https://e.com/keep.txt" }

/-! ## C5: merge order, dedup precedence and inherited metadata -/

theorem mergeDiscGo_append (cfg : Config) (ds : List String) :
    ∀ added items, ∃ t, mergeDiscGo cfg added items ds = items ++ t ∧
      ∀ it ∈ t, it.url ∈ ds ∧ it.changefreq = cfg.changefreq ∧
        it.priority = cfg.priority := by
  induction ds with
  | nil =>
    intro added items
    exact ⟨[], by simp [mergeDiscGo]⟩
  | cons u rest ih =>
    intro added items
    unfold mergeDiscGo
    by_cases h1 : cfg.maxTotalUrls ≤ items.length
    · exact ⟨[], by simp [h1]⟩
    · by_cases h2 : cfg.maxDiscoveredLinks ≤ added
      · exact ⟨[], by simp [h1, h2]⟩
      · by_cases h3 : items.any (fun it => it.url = u) = true
        · obtain ⟨t, ht, hp⟩ := ih added items
          refine ⟨t, ?_, ?_⟩
          · simp only [if_neg h1, if_neg h2, if_pos h3]
            exact ht
          · intro it hit
            obtain ⟨hu, hc, hq⟩ := hp it hit
            exact ⟨List.mem_cons_of_mem _ hu, hc, hq⟩
        · obtain ⟨t, ht, hp⟩ :=
            ih (added + 1)
              (items ++ [{ url := u, changefreq := cfg.changefreq, priority := cfg.priority }])
          refine ⟨{ url := u, changefreq := cfg.changefreq, priority := cfg.priority } :: t, ?_, ?_⟩
          · simp only [if_neg h1, if_neg h2, if_neg h3]
            rw [ht, List.append_assoc]
            rfl
          · intro it hit
            rcases List.mem_cons.mp hit with hit | hit
            · subst hit
              exact ⟨List.mem_cons_self _ _, rfl, rfl⟩
            · obtain ⟨hu, hc, hq⟩ := hp it hit
              exact ⟨List.mem_cons_of_mem _ hu, hc, hq⟩

theorem mergeDiscovered_append (cfg : Config) (items : List Item) (ds : List String) :
    ∃ t, mergeDiscovered cfg items ds = items ++ t ∧
      ∀ it ∈ t, it.url ∈ ds ∧ it.changefreq = cfg.changefreq ∧
        it.priority = cfg.priority := by
  unfold mergeDiscovered
  by_cases h : (cfg.discoverLinks && !ds.isEmpty) = true
  · rw [if_pos h]
    exact mergeDiscGo_append cfg ds 0 items
  · rw [if_neg h]
    exact ⟨[], by simp⟩

theorem mem_dedupGo (l : List Item) :
    ∀ seen x, x ∈ dedupGo seen l ↔
      ∃ l1 l2, l = l1 ++ x :: l2 ∧ x.url ∉ seen ∧ ∀ y ∈ l1, y.url ≠ x.url := by
  induction l with
  | nil =>
    intro seen x
    constructor
    · intro h; simp [dedupGo] at h
    · rintro ⟨l1, l2, heq, -, -⟩
      exact absurd heq.symm (by simp)
  | cons a rest ih =>
    intro seen x
    unfold dedupGo
    by_cases ha : a.url ∈ seen
    · rw [if_pos ha, ih seen x]
      constructor
      · rintro ⟨l1, l2, heq, hns, hall⟩
        refine ⟨a :: l1, l2, by rw [heq]; rfl, hns, ?_⟩
        intro y hy
        rcases List.mem_cons.mp hy with hy | hy
        · subst hy
          intro hc
          exact hns (hc ▸ ha)
        · exact hall y hy
      · rintro ⟨l1, l2, heq, hns, hall⟩
        cases l1 with
        | nil =>
          simp only [List.nil_append, List.cons.injEq] at heq
          exact absurd (heq.1 ▸ ha) hns
        | cons b l1' =>
          simp only [List.cons_append, List.cons.injEq] at heq
          exact ⟨l1', l2, heq.2, hns, fun y hy => hall y (List.mem_cons_of_mem _ hy)⟩
    · rw [if_neg ha]
      constructor
      · intro hx
        rcases List.mem_cons.mp hx with hx | hx
        · subst hx
          exact ⟨[], rest, rfl, ha, by simp⟩
        · obtain ⟨l1, l2, heq, hns, hall⟩ := (ih (a.url :: seen) x).mp hx
          have hxa : x.url ≠ a.url := fun hc => hns (by rw [hc]; exact List.mem_cons_self _ _)
          have hxs : x.url ∉ seen := fun hc => hns (List.mem_cons_of_mem _ hc)
          refine ⟨a :: l1, l2, by rw [heq]; rfl, hxs, ?_⟩
          intro y hy
          rcases List.mem_cons.mp hy with hy | hy
          · subst hy; exact fun hc => hxa hc.symm
          · exact hall y hy
      · rintro ⟨l1, l2, heq, hns, hall⟩
        cases l1 with
        | nil =>
          simp only [List.nil_append, List.cons.injEq] at heq
          rw [heq.1]
          exact List.mem_cons_self _ _
        | cons b l1' =>
          simp only [List.cons_append, List.cons.injEq] at heq
          refine List.mem_cons.mpr (Or.inr ?_)
          rw [ih (a.url :: seen) x]
          refine ⟨l1', l2, heq.2, ?_, fun y hy => hall y (List.mem_cons_of_mem _ hy)⟩
          intro hc
          rcases List.mem_cons.mp hc with hc | hc
          · have hb := hall b (List.mem_cons_self _ _)
            rw [← heq.1] at hb
            exact hb hc.symm
          · exact hns hc

/-- C5: candidates are merged walked-first, then manual, then discovered;
manual and discovered items carry the run's configured changefreq and
priority; and deduplication keeps exactly the first occurrence of each URL
in merge order. -/
theorem C5_merge_order_dedup (cfg : Config) (files : List FileEntry)
    (fsFiles : List String) :
    (∃ dtail,
      mergedItems cfg files fsFiles =
        (walkAll cfg fsFiles files).1 ++ manualItems cfg ++ dtail ∧
      ∀ it ∈ dtail, it.url ∈ (walkAll cfg fsFiles files).2 ∧
        it.changefreq = cfg.changefreq ∧ it.priority = cfg.priority) ∧
    (∀ it ∈ manualItems cfg,
      it.changefreq = cfg.changefreq ∧ it.priority = cfg.priority) ∧
    (∀ x, x ∈ dedupKeepFirst (mergedItems cfg files fsFiles) ↔
      ∃ l1 l2, mergedItems cfg files fsFiles = l1 ++ x :: l2 ∧
        ∀ y ∈ l1, y.url ≠ x.url) := by
  refine ⟨?_, ?_, ?_⟩
  · obtain ⟨t, ht, hp⟩ :=
      mergeDiscovered_append cfg
        ((walkAll cfg fsFiles files).1 ++ manualItems cfg)
        (walkAll cfg fsFiles files).2
    exact ⟨t, by rw [mergedItems, ht], hp⟩
  · intro it hit
    obtain ⟨u, -, rfl⟩ := List.mem_map.mp hit
    exact ⟨rfl, rfl⟩
  · intro x
    rw [dedupKeepFirst, mem_dedupGo]
    constructor
    · rintro ⟨l1, l2, heq, -, hall⟩
      exact ⟨l1, l2, heq, hall⟩
    · rintro ⟨l1, l2, heq, hall⟩
      exact ⟨l1, l2, heq, by simp, hall⟩

/-! ## C6: relative canonical href resolution -/

/-- C6 (amended): when canonical parsing is on and an HTML file declares a
relative (non-`http(s)`) canonical href, the walked item's URL is the href
with one leading slash stripped, joined to the site root `publicDir` — not
to the containing directory of the file — and normalized back to an
absolute URL. -/
theorem C6_canonical_root_resolution (cfg : Config) (fsFiles dset : List String)
    (f : FileEntry) (href : String)
    (hstat : f.statOk = true) (hpc : cfg.parseCanonical = true)
    (hext : extnameLower f.rel = ".html" ∨ extnameLower f.rel = ".htm")
    (hhref : f.canonicalHref = some href) (hne : href ≠ "")
    (hrel : startsHttp href = false) :
    (walkFile cfg fsFiles dset f).1 =
      [{ url := normalizePathToUrl cfg.baseUrl cfg.publicDir
            (pathJoin cfg.publicDir (stripOneSlash href)),
         lastmod := f.lastmod, changefreq := cfg.changefreq,
         priority := cfg.priority }] := by
  have hmap : ¬ extnameLower f.rel = ".map" := by
    rcases hext with h | h <;> simp [h]
  unfold walkFile
  rw [if_neg hmap]
  rcases hext with hext | hext <;>
    simp [hstat, hpc, hext, hhref, hne, hrel]

/-- Canonical counterexample configuration. -/
def exCfg6 : Config := { baseUrl := "https://e.com", publicDir := "dist" }

/-- An HTML file in a subdirectory declaring a relative canonical href. -/
def exFile6 : FileEntry := { rel := "blog/post.html", canonicalHref := some "c.html" }

/-- C6 counterexample: for `blog/post.html` with canonical href `c.html`
the code produces `https://e.com/c.html` (site-root resolution), while the
claimed containing-directory resolution would give
`https://e.com/blog/c.html`. -/
theorem C6_counterexample :
    buildUrls exCfg6 [exFile6] [] = [{ url := "https://e.com/c.html" }] ∧
    specCanonicalResolve "https://e.com" "dist" "blog/post.html" "c.html" =
      "https://e.com/blog/c.html" ∧
    ("https://e.com/c.html" : String) ≠ "https://e.com/blog/c.html" := by
  decide

/-- Witness instantiation of the amended canonical-resolution theorem. -/
theorem C6_canonical_root_resolution_witness :
    (walkFile exCfg6 [] [] exFile6).1 =
      [{ url := normalizePathToUrl exCfg6.baseUrl exCfg6.publicDir
            (pathJoin exCfg6.publicDir (stripOneSlash "c.html")),
         lastmod := none, changefreq := none, priority := none }] :=
  C6_canonical_root_resolution exCfg6 [] [] exFile6 "c.html" rfl rfl
    (Or.inl (by decide)) rfl (by decide) (by decide)

/-! ## C7: the discovery cap -/

theorem addAnchorsNoCap_append (cfg : Config) (fsFiles : List String)
    (as : List String) :
    ∀ u, ∃ t, addAnchorsNoCap cfg fsFiles u as = u ++ t := by
  induction as with
  | nil => intro u; exact ⟨[], by simp [addAnchorsNoCap]⟩
  | cons a rest ih =>
    intro u
    unfold addAnchorsNoCap
    by_cases h1 : a = ""
    · simpa [h1] using ih u
    · by_cases h2 : startsHttp a = true
      · simpa [h1, h2] using ih u
      · by_cases h3 : strStarts a "#" = true
        · simpa [h1, h2, h3] using ih u
        · by_cases h4 : pathJoin cfg.publicDir (stripOneSlash a) ∈ fsFiles
          · by_cases h5 :
              normalizePathToUrl cfg.baseUrl cfg.publicDir
                (pathJoin cfg.publicDir (stripOneSlash a)) ∈ u
            · simpa [h1, h2, h3, h4, h5] using ih u
            · obtain ⟨t, ht⟩ :=
                ih (u ++ [normalizePathToUrl cfg.baseUrl cfg.publicDir
                  (pathJoin cfg.publicDir (stripOneSlash a))])
              refine ⟨normalizePathToUrl cfg.baseUrl cfg.publicDir
                (pathJoin cfg.publicDir (stripOneSlash a)) :: t, ?_⟩
              simp only [h1, h2, h3, h4, h5, if_neg, if_pos, ite_true, ite_false]
              simp [ht]
          · simpa [h1, h2, h3, h4] using ih u

theorem addAnchors_take (cfg : Config) (fsFiles : List String) (as : List String) :
    ∀ c u, c = u.take cfg.maxDiscoveredLinks →
      addAnchors cfg fsFiles c as =
        (addAnchorsNoCap cfg fsFiles u as).take cfg.maxDiscoveredLinks := by
  induction as with
  | nil =>
    intro c u h
    simpa [addAnchors, addAnchorsNoCap] using h
  | cons a rest ih =>
    intro c u h
    have hclen : c.length = min cfg.maxDiscoveredLinks u.length := by
      rw [h, List.length_take]
    by_cases hcap : cfg.maxDiscoveredLinks ≤ c.length
    · have hul : cfg.maxDiscoveredLinks ≤ u.length := by omega
      obtain ⟨t, ht⟩ := addAnchorsNoCap_append cfg fsFiles (a :: rest) u
      rw [addAnchors, if_pos hcap, ht, List.take_append_eq_append_take,
        Nat.sub_eq_zero_of_le hul, List.take_zero, List.append_nil, ← h]
    · have hcu : c = u := by
        rw [h]
        exact List.take_of_length_le (by omega)
      subst hcu
      rw [addAnchors, if_neg hcap]
      conv_rhs => rw [addAnchorsNoCap]
      by_cases h1 : a = ""
      · simp only [h1, ite_true, if_pos rfl]
        exact ih c c h
      · by_cases h2 : startsHttp a = true
        · simp only [h1, h2, ite_true, ite_false, if_pos, if_neg, not_false_iff]
          exact ih c c h
        · by_cases h3 : strStarts a "#" = true
          · simp only [h1, h2, h3, ite_true, ite_false]
            exact ih c c h
          · by_cases h4 : pathJoin cfg.publicDir (stripOneSlash a) ∈ fsFiles
            · by_cases h5 :
                normalizePathToUrl cfg.baseUrl cfg.publicDir
                  (pathJoin cfg.publicDir (stripOneSlash a)) ∈ c
              · simp only [h1, h2, h3, h4, h5, ite_true, ite_false]
                exact ih c c h
              · simp only [h1, h2, h3, h4, h5, ite_true, ite_false]
                refine ih _ _ ?_
                refine (List.take_of_length_le ?_).symm
                simp only [List.length_append, List.length_cons, List.length_nil]
                omega
            · simp only [h1, h2, h3, h4, ite_true, ite_false]
              exact ih c c h

theorem walkFile_snd_take (cfg : Config) (fsFiles : List String) (f : FileEntry) :
    ∀ c u, c = u.take cfg.maxDiscoveredLinks →
      (walkFile cfg fsFiles c f).2 =
        (discFileNoCap cfg fsFiles u f).take cfg.maxDiscoveredLinks := by
  intro c u h
  unfold walkFile discFileNoCap
  by_cases hmap : extnameLower f.rel = ".map"
  · simpa [hmap] using h
  · simp only [if_neg hmap]
    by_cases hstat : f.statOk = true
    · simp only [hstat, ite_true]
      by_cases hhtml :
          (cfg.parseCanonical &&
            (decide (extnameLower f.rel = ".html") ||
              decide (extnameLower f.rel = ".htm"))) = true
      · simp only [hhtml, ite_true]
        by_cases hdisc : cfg.discoverLinks = true
        · cases hcan : f.canonicalHref with
          | none => simpa [hdisc, hcan] using addAnchors_take cfg fsFiles f.anchors c u h
          | some href =>
            by_cases hne : href = ""
            · simpa [hdisc, hcan, hne] using addAnchors_take cfg fsFiles f.anchors c u h
            · by_cases habs : startsHttp href = true <;>
                simpa [hdisc, hcan, hne, habs] using
                  addAnchors_take cfg fsFiles f.anchors c u h
        · have hdisc' : cfg.discoverLinks = false := by
            cases hd : cfg.discoverLinks
            · rfl
            · exact absurd hd hdisc
          cases hcan : f.canonicalHref with
          | none => simpa [hdisc', hcan] using h
          | some href =>
            by_cases hne : href = ""
            · simpa [hdisc', hcan, hne] using h
            · by_cases habs : startsHttp href = true <;>
                simpa [hdisc', hcan, hne, habs] using h
      · simpa [hhtml] using h
    · have hstat' : f.statOk = false := by
        cases hs : f.statOk
        · rfl
        · exact absurd hs hstat
      simpa [hstat'] using h

theorem walkGo_snd_take (cfg : Config) (fsFiles : List String)
    (files : List FileEntry) :
    ∀ items c u, c = u.take cfg.maxDiscoveredLinks →
      (walkGo cfg fsFiles items c files).2 =
        (discGoNoCap cfg fsFiles u files).take cfg.maxDiscoveredLinks := by
  induction files with
  | nil =>
    intro items c u h
    simpa [walkGo, discGoNoCap] using h
  | cons f rest ih =>
    intro items c u h
    unfold walkGo discGoNoCap
    exact ih _ _ _ (walkFile_snd_take cfg fsFiles f c u h)

/-- C7: with more than `maxDiscoveredLinks` distinct discoverable internal
links, the discovery set is exactly the first `maxDiscoveredLinks` of them
(the cap is checked before each addition), hence has exactly that many
elements; and merging discovered links only ever appends to the item list,
so walked and manual items are never removed by the cap. -/
theorem C7_discovery_cap (cfg : Config) (files : List FileEntry)
    (fsFiles : List String)
    (h : cfg.maxDiscoveredLinks < (discoverAllNoCap cfg fsFiles files).length) :
    (walkAll cfg fsFiles files).2 =
      (discoverAllNoCap cfg fsFiles files).take cfg.maxDiscoveredLinks ∧
    (walkAll cfg fsFiles files).2.length = cfg.maxDiscoveredLinks ∧
    ∀ items ds, ∃ t, mergeDiscovered cfg items ds = items ++ t := by
  have hmain : (walkAll cfg fsFiles files).2 =
      (discoverAllNoCap cfg fsFiles files).take cfg.maxDiscoveredLinks :=
    walkGo_snd_take cfg fsFiles files [] [] [] (by simp)
  refine ⟨hmain, ?_, ?_⟩
  · rw [hmain, List.length_take]
    omega
  · intro items ds
    obtain ⟨t, ht, -⟩ := mergeDiscovered_append cfg items ds
    exact ⟨t, ht⟩

/-- Discovery-cap witness configuration: cap 1, two discoverable links. -/
def wCfg7 : Config :=
  { baseUrl := "https://e.com", publicDir := "dist", maxDiscoveredLinks := 1 }

/-- An HTML file with two internal anchors to existing files. -/
def wFile7 : FileEntry := { rel := "i.html", anchors := ["a.txt", "b.txt"] }

/-- The existing files for the discovery-cap witness. -/
def wFs7 : List String := ["dist/a.txt", "dist/b.txt"]

/-- Witness instantiation of the discovery-cap theorem. -/
theorem C7_discovery_cap_witness :
    (walkAll wCfg7 wFs7 [wFile7]).2 =
      (discoverAllNoCap wCfg7 wFs7 [wFile7]).take wCfg7.maxDiscoveredLinks ∧
    (walkAll wCfg7 wFs7 [wFile7]).2.length = wCfg7.maxDiscoveredLinks ∧
    ∀ items ds, ∃ t, mergeDiscovered wCfg7 items ds = items ++ t :=
  C7_discovery_cap wCfg7 [wFile7] wFs7 (by decide)

/-! ## C9: strict versus lenient classification -/

theorem map_demote_ite (c : Prop) [Decidable c] (a b : List Finding) :
    (if c then a else b).map demote = if c then a.map demote else b.map demote := by
  split <;> rfl

theorem sev_false : sev false = .warning := rfl

theorem sev_true : sev true = .error := rfl

set_option maxRecDepth 8000 in
theorem validateXml_demote (content : String) (m : Nat) :
    validateXmlSitemap content false m =
      (validateXmlSitemap content true m).map demote := by
  simp only [validateXmlSitemap, sev_false, sev_true, List.map_append, map_demote_ite,
    List.map_cons, List.map_nil, demote]

set_option maxRecDepth 8000 in
theorem validateTxt_demote (content : String) (m : Nat) :
    validateTxtSitemap content false m =
      (validateTxtSitemap content true m).map demote := by
  simp only [validateTxtSitemap, sev_false, sev_true, List.map_append, map_demote_ite,
    List.map_cons, List.map_nil, demote]

set_option maxRecDepth 8000 in
theorem validateIndex_demote (content : String) (m : Nat) :
    validateSitemapIndex content false m =
      (validateSitemapIndex content true m).map demote := by
  simp only [validateSitemapIndex, sev_false, sev_true, List.map_append, map_demote_ite,
    List.map_cons, List.map_nil, demote]

theorem mem_map_demote (l : List Finding) (f : Finding) (hf : f ∈ l)
    (ht : f.type = FType.error) :
    (⟨FType.warning, f.message⟩ : Finding) ∈ l.map demote := by
  have hd : demote f = ⟨FType.warning, f.message⟩ := by
    simp [demote, ht]
  exact hd ▸ List.mem_map_of_mem demote hf

set_option maxRecDepth 8000 in
/-- C9 (amended): the lenient output of each validator is exactly the
strict output with every error demoted to a warning; every error finding
of a strict run reappears as a warning with the same message in the
lenient run; and each failing strict-classified check — XML structure,
required namespace, `<url>` element pair, `<loc>` element pair, XML URL
count, TXT URL count, TXT line validity, index structure, missing index
entries, index entry count — produces an error finding under the strict
policy.  The XML validator's location, changefreq and priority value
checks stay warnings under both policies (see the counterexample). -/
theorem C9_policy_demote (content : String) (m : Nat) :
    (validateXmlSitemap content false m =
        (validateXmlSitemap content true m).map demote ∧
      validateTxtSitemap content false m =
        (validateTxtSitemap content true m).map demote ∧
      validateSitemapIndex content false m =
        (validateSitemapIndex content true m).map demote) ∧
    (∀ f ∈ validateXmlSitemap content true m, f.type = FType.error →
      (⟨FType.warning, f.message⟩ : Finding) ∈ validateXmlSitemap content false m) ∧
    (∀ f ∈ validateTxtSitemap content true m, f.type = FType.error →
      (⟨FType.warning, f.message⟩ : Finding) ∈ validateTxtSitemap content false m) ∧
    (∀ f ∈ validateSitemapIndex content true m, f.type = FType.error →
      (⟨FType.warning, f.message⟩ : Finding) ∈ validateSitemapIndex content false m) ∧
    ((!strStarts (jsTrim content) "<?xml" || !hasOpenTag "urlset" content.data ||
        !hasSubCI "</urlset>".data content.data) = true →
      (⟨FType.error,
        "      ✗ Invalid XML structure (missing <?xml>, <urlset>, or </urlset>)"⟩ : Finding) ∈
        validateXmlSitemap content true m) ∧
    ((!hasSub "xmlns=\"http://www.sitemaps.org/schemas/sitemap/0.9\"".data content.data) = true →
      (⟨FType.error,
        "      ✗ Missing required namespace: xmlns=\"http://www.sitemaps.org/schemas/sitemap/0.9\""⟩ : Finding) ∈
        validateXmlSitemap content true m) ∧
    ((!(hasSub "<url>".data content.data && hasSub "</url>".data content.data)) = true →
      (⟨FType.error, "      ✗ Missing required <url> tags"⟩ : Finding) ∈
        validateXmlSitemap content true m) ∧
    ((!(hasSub "<url>".data content.data && hasSub "</url>".data content.data)) = false →
      (!(hasSub "<loc>".data content.data && hasSub "</loc>".data content.data)) = true →
      (⟨FType.error, "      ✗ Missing required <loc> tags"⟩ : Finding) ∈
        validateXmlSitemap content true m) ∧
    (m < countSubCI "<url>" content →
      (⟨FType.error, "      ✗ Exceeds URL limit: " ++ toString (countSubCI "<url>" content) ++
          " URLs (max: " ++ toString m ++ ")"⟩ : Finding) ∈
        validateXmlSitemap content true m) ∧
    (m < (txtLines content).length →
      (⟨FType.error, "      ✗ Exceeds URL limit: " ++ toString (txtLines content).length ++
          " URLs (max: " ++ toString m ++ ")"⟩ : Finding) ∈
        validateTxtSitemap content true m) ∧
    (0 < (txtLines content).countP (fun l => txtLineInvalid l) →
      (⟨FType.error,
        "      ⚠️  Contains " ++ toString ((txtLines content).countP (fun l => txtLineInvalid l)) ++
          " invalid URL(s) (must start with http/https, no embedded newlines)"⟩ : Finding) ∈
        validateTxtSitemap content true m) ∧
    ((!hasOpenTag "sitemapindex" content.data ||
        !hasSubCI "</sitemapindex>".data content.data) = true →
      (⟨FType.error,
        "      ✗ Invalid sitemap index structure (missing <sitemapindex> or </sitemapindex>)"⟩ : Finding) ∈
        validateSitemapIndex content true m) ∧
    ((scanIndexEntries content.data).length = 0 →
      (⟨FType.error, "      ✗ Missing <sitemap> entries in index"⟩ : Finding) ∈
        validateSitemapIndex content true m) ∧
    (m < (scanIndexEntries content.data).length →
      (⟨FType.error,
        "      ✗ Exceeds sitemap index entry limit: " ++ toString (scanIndexEntries content.data).length ++
          " (max: " ++ toString m ++ ")"⟩ : Finding) ∈
        validateSitemapIndex content true m) := by
  have hx := validateXml_demote content m
  have htx := validateTxt_demote content m
  have hix := validateIndex_demote content m
  refine ⟨⟨hx, htx, hix⟩, ?_, ?_, ?_, ?_, ?_, ?_, ?_, ?_, ?_, ?_, ?_, ?_, ?_⟩
  · intro f hf herr
    rw [hx]
    exact mem_map_demote _ f hf herr
  · intro f hf herr
    rw [htx]
    exact mem_map_demote _ f hf herr
  · intro f hf herr
    rw [hix]
    exact mem_map_demote _ f hf herr
  · intro h
    simp only [validateXmlSitemap, sev_true]
    rw [if_pos h]
    simp
  · intro h
    simp only [validateXmlSitemap, sev_true]
    rw [if_pos h]
    simp
  · intro h
    simp only [validateXmlSitemap, sev_true]
    rw [if_pos h]
    simp
  · intro h1 h2
    simp only [validateXmlSitemap, sev_true]
    have hcond :
        ¬((!(hasSub "<url>".data content.data && hasSub "</url>".data content.data)) = true) := by
      rw [h1]
      decide
    rw [if_neg hcond, if_pos h2]
    simp
  · intro h
    simp only [validateXmlSitemap, sev_true]
    rw [if_pos h]
    simp
  · intro h
    simp only [validateTxtSitemap, sev_true]
    rw [if_pos h]
    simp
  · intro h
    simp only [validateTxtSitemap, sev_true]
    rw [if_pos h]
    simp
  · intro h
    simp only [validateSitemapIndex, sev_true]
    rw [if_pos h]
    simp
  · intro h
    simp only [validateSitemapIndex, sev_true]
    rw [if_pos h]
    simp
  · intro h
    simp only [validateSitemapIndex, sev_true]
    rw [if_pos h]
    simp

/-- A structurally valid sitemap whose only defect is an out-of-range
priority value. -/
def exXml9 : String :=
  "<?xml version=\"1.0\"?><urlset xmlns=\"http://www.sitemaps.org/schemas/sitemap/0.9\"><url><loc>https://e.com/a</loc><priority>2.0</priority></url></urlset>"

set_option maxRecDepth 100000 in
/-- C9 counterexample: under the strict policy the failing priority-range
check produces a warning, not an error — the strict output contains no
error finding at all. -/
theorem C9_counterexample :
    validateXmlSitemap exXml9 true 50000 =
      [⟨.info, "      ✓ Valid XML format"⟩,
       ⟨.warning, "      ⚠️  Invalid <priority> value: must be between 0.0 and 1.0"⟩,
       ⟨.info, "      ✓ Valid sitemap format (sitemaps.org compliant)"⟩] ∧
    ∀ f ∈ validateXmlSitemap exXml9 true 50000, f.type ≠ FType.error := by
  decide

/-! ## C10: the TXT embedded-newline test -/

theorem splitCRLF_no_newline :
    ∀ (cs : List Char), ∀ l ∈ splitCRLF cs, '\n' ∉ l := by
  intro cs
  induction cs using splitCRLF.induct with
  | case1 =>
    intro l hl
    simp only [splitCRLF, List.mem_singleton] at hl
    simp [hl]
  | case2 rest ih =>
    intro l hl
    simp only [splitCRLF, List.mem_cons] at hl
    rcases hl with rfl | hl
    · simp
    · exact ih l hl
  | case3 rest ih =>
    intro l hl
    simp only [splitCRLF, List.mem_cons] at hl
    rcases hl with rfl | hl
    · simp
    · exact ih l hl
  | case4 c rest h1 h2 heq ih =>
    intro l hl
    rw [splitCRLF.eq_def] at hl
    split at hl
    · rename_i hq
      exact absurd hq (by simp)
    · rename_i r hq
      injection hq with hc hr
      exact (h1 r hc hr).elim
    · rename_i r hq
      injection hq with hc hr
      exact (h2 hc).elim
    · rename_i c2 r2 g1 g2 hq
      injection hq with hc hr
      subst hc
      subst hr
      rw [heq] at hl
      simp only [List.mem_singleton] at hl
      subst hl
      simp only [List.mem_singleton]
      intro hcc
      exact h2 hcc.symm
  | case5 c rest h1 h2 h t heq ih =>
    intro l hl
    rw [splitCRLF.eq_def] at hl
    split at hl
    · rename_i hq
      exact absurd hq (by simp)
    · rename_i r hq
      injection hq with hc hr
      exact (h1 r hc hr).elim
    · rename_i r hq
      injection hq with hc hr
      exact (h2 hc).elim
    · rename_i c2 r2 g1 g2 hq
      injection hq with hc hr
      subst hc
      subst hr
      rw [heq] at hl
      rcases List.mem_cons.mp hl with rfl | hlt
      · intro hn
        rcases List.mem_cons.mp hn with hn1 | hn2
        · exact h2 hn1.symm
        · exact ih h (by rw [heq]; exact List.mem_cons_self h t) hn2
      · exact ih l (by rw [heq]; exact List.mem_cons_of_mem h hlt)

/-- C10 (amended): lines produced by the split on carriage-return/line-feed
pairs or bare line feeds never contain a line feed, so the line-feed half of
the embedded-newline test is vacuous; but a lone carriage return survives
the split, so a line is counted invalid exactly when it fails the
http/https prefix test or contains a carriage return. -/
theorem C10_txt_line_invalid (content : String) :
    ∀ l ∈ txtLines content,
      strHasChar l '\n' = false ∧
      txtLineInvalid l = (!startsHttp l || strHasChar l '\r') := by
  intro l hl
  simp only [txtLines, List.mem_filter, List.mem_map] at hl
  obtain ⟨⟨cs, hcs, rfl⟩, -⟩ := hl
  have hmem : '\n' ∉ cs := splitCRLF_no_newline content.data cs hcs
  have hn : strHasChar cs.asString '\n' = false := by
    simp only [strHasChar]
    cases hc : cs.contains '\n' with
    | false => exact hc
    | true => exact absurd (List.mem_of_elem_eq_true hc) hmem
  refine ⟨hn, ?_⟩
  simp only [txtLineInvalid, hn, Bool.or_false]

/-- Input for the embedded-newline counterexample: a single line holding a
bare carriage return between two URL characters. -/
def txt10 : String := "http://a\rx"

/-- C10 counterexample: every line of `txt10` starts with `http`, yet the
TXT validator counts one invalid URL — the carriage return kept by the
split makes the embedded-newline test fire, so the test is not vacuous and
invalidity is not equivalent to failing the prefix test. -/
theorem C10_counterexample :
    (∀ l ∈ txtLines txt10, startsHttp l = true) ∧
    validateTxtSitemap txt10 false 50000 =
      [⟨.warning,
        "      ⚠️  Contains 1 invalid URL(s) (must start with http/https, no embedded newlines)"⟩] := by
  decide

/-- Witness instantiation of the amended line-invalidity theorem. -/
theorem C10_txt_line_invalid_witness :
    strHasChar "http://b" '\n' = false ∧
    txtLineInvalid "http://b" = (!startsHttp "http://b" || strHasChar "http://b" '\r') :=
  C10_txt_line_invalid "http://b" "http://b" (by decide)

end Sitemap
